import Mathlib

/-!
Verification of the two CSV-to-YAML generator scripts of this repository:
`generate-all-configs.py` (the analysis-checks path) and
`generate-cross-estar.py` (the cross-phase and eSTAR paths).

Python strings are modelled as `List Char` (a Python `str` is a sequence of
code points).  Python `dict` rows produced by `csv.DictReader` are modelled as
association lists with string keys.  Fallible operations (direct `check[key]`
indexing, `split()[-1]`) are modelled in the `Option` monad: a `none` result
models the uncaught `KeyError` / `IndexError` that aborts a run.  Python
`dict` accumulation (insertion-ordered) is modelled by an association-list
fold that appends new keys at the end, and `sorted(...)` on `dict.items()`
(key comparison first; keys are unique) is modelled by a stable insertion
sort on the key.  All definitions are structural so that they evaluate inside
the kernel.
-/

/-- A Python string: a sequence of code points. -/

abbrev Str := List Char

/-- Convert a Lean string literal to the `Str` model. -/

def str (s : String) : Str := s.data

/-- Python `str.lower()` (ASCII model, applied per code point). -/

def pyLower (s : Str) : Str := s.map Char.toLower

/-- Python `str.upper()` (ASCII model, applied per code point). -/

def pyUpper (s : Str) : Str := s.map Char.toUpper

/-- Python slice `s[:n]`: the first `n` code points of `s`. -/

def pyTake (s : Str) (n : Nat) : Str := s.take n

/-- Python `str.replace(old, new)` for a single-character pattern `old`:
every occurrence of the character `old` is replaced by the string `new`. -/

def replaceChar (old : Char) (new : Str) (s : Str) : Str :=
  s.flatMap (fun c => if c = old then new else [c])

/-- The function `safe_key` from `generate-all-configs.py`:
`text.lower().replace(' ', '_').replace('&', 'and').replace('(', '')
.replace(')', '').replace('-', '_').replace(',', '')`, applied in that
order. -/

def safe_key (text : Str) : Str :=
  replaceChar ',' []
    (replaceChar '-' ['_']
      (replaceChar ')' []
        (replaceChar '(' []
          (replaceChar '&' (str "and")
            (replaceChar ' ' ['_'] (pyLower text))))))

/-- The key normalization of `generate-cross-estar.py`
(`check_type.lower().replace(' ', '_')`, and identically for
`section.lower().replace(' ', '_')`). -/

def simple_key (text : Str) : Str := replaceChar ' ' ['_'] (pyLower text)

/-- Python `str.split()` whitespace (ASCII whitespace characters). -/

def pyIsSpace (c : Char) : Bool :=
  c = ' ' ∨ c = '\t' ∨ c = '\n' ∨ c = '\r' ∨ c = '\x0b' ∨ c = '\x0c'

/-- Worker for `pySplit`, with explicit fuel so that the recursion is
structural; `fuel ≥ s.length` suffices. -/

def pySplitCore : Nat → Str → List Str
  | 0, _ => []
  | fuel + 1, s =>
    match s.dropWhile pyIsSpace with
    | [] => []
    | c :: cs =>
      ((c :: cs).takeWhile (fun x => ¬ pyIsSpace x)) ::
        pySplitCore fuel ((c :: cs).dropWhile (fun x => ¬ pyIsSpace x))

/-- Python `str.split()` with no arguments: split on runs of whitespace,
dropping empty tokens (so leading/trailing whitespace yields no token and an
empty or all-whitespace string yields `[]`). -/

def pySplit (s : Str) : List Str := pySplitCore s.length s

/-- Python `s.split()[-1]`: the last whitespace-delimited token.  `none`
models the `IndexError` raised on an empty token list. -/

def lastToken (s : Str) : Option Str := (pySplit s).getLast?

/-- Decimal digits of `n`, most significant first, with explicit fuel
(`fuel ≥ n` suffices); `[]` for `n = 0`. -/

def toDecCore : Nat → Nat → Str
  | 0, _ => []
  | _ + 1, 0 => []
  | fuel + 1, n + 1 =>
    toDecCore fuel ((n + 1) / 10) ++ [Nat.digitChar ((n + 1) % 10)]

/-- The decimal representation of a natural number (Python `repr`). -/

def toDec (n : Nat) : Str := if n = 0 then ['0'] else toDecCore n n

/-- Python format `f'{n:03d}'`: the decimal representation of `n`,
left-padded with `'0'` to a minimum width of three characters. -/

def pad3 (n : Nat) : Str :=
  let d := toDec n
  List.replicate (3 - d.length) '0' ++ d

/-- One step of reading a decimal string back to a number. -/

def decStep (acc : Nat) (c : Char) : Nat := acc * 10 + (c.toNat - 48)

/-- Read a decimal string back to a number (used to invert `pad3`). -/

def decodeDec (s : Str) : Nat := s.foldl decStep 0

/-- A CSV row as produced by `csv.DictReader`: a mapping from header name to
cell value, modelled as an association list. -/

abbrev Record := List (Str × Str)

/-- Python `check[k]` on a dict row: `none` models the uncaught `KeyError`. -/

def lookup? (r : Record) (k : Str) : Option Str :=
  (r.find? (fun p => p.1 == k)).map (fun p => p.2)

/-- Python `check.get(k, d)` on a dict row. -/

def getD (r : Record) (k : Str) (d : Str) : Str := (lookup? r k).getD d

/-- One step of Python dict-of-list accumulation
(`if k not in d: d[k] = []` followed by `d[k].append(v)`): insertion order
of keys is preserved, a new key goes to the end, and the value is appended
at the end of its key's list. -/

def addToGroup {β : Type} (k : Str) (v : β) :
    List (Str × List β) → List (Str × List β)
  | [] => [(k, [v])]
  | (k', vs) :: rest =>
    if k = k' then (k', vs ++ [v]) :: rest
    else (k', vs) :: addToGroup k v rest

/-- One step of the two-level dict accumulation of `generate-all-configs.py`
(`phase_data[phase][category].append(check)` with missing levels created). -/

def addToGroup2 (p c : Str) (v : Record) :
    List (Str × List (Str × List Record)) →
      List (Str × List (Str × List Record))
  | [] => [(p, addToGroup c v [])]
  | (p', g) :: rest =>
    if p = p' then (p', addToGroup c v g) :: rest
    else (p', g) :: addToGroup2 p c v rest

/-- Traverse a list with a fallible function, left to right, failing as soon
as the function fails (a Python `for` loop building a list, where the body
may raise). -/

def mapO {α β : Type} (f : α → Option β) : List α → Option (List β)
  | [] => some []
  | x :: xs =>
    match f x, mapO f xs with
    | some y, some ys => some (y :: ys)
    | _, _ => none

/-- Python `enumerate(l, i)`. -/

def enum1 {α : Type} : Nat → List α → List (Nat × α)
  | _, [] => []
  | i, x :: xs => (i, x) :: enum1 (i + 1) xs

/-- Python dict assignment `d[k] = v` on an insertion-ordered dict: when the
key is already present its value is overwritten in place (the key keeps its
original position); otherwise the pair is appended at the end. -/

def setKey {G : Type} (k : Str) (v : G) : List (Str × G) → List (Str × G)
  | [] => [(k, v)]
  | (k', v') :: rest =>
    if k = k' then (k, v) :: rest else (k', v') :: setKey k v rest

/-- A Python loop that assigns one dict entry per iteration
(`d[key(g)] = build(g)`), where the body may raise: each built `(key, value)`
pair is stored with `setKey`, so a later iteration whose key collides with an
earlier one silently overwrites the earlier entry. -/

def docFold {A G : Type} (B : A → Option (Str × G)) (acc : List (Str × G)) :
    List A → Option (List (Str × G))
  | [] => some acc
  | g :: gs => (B g).bind fun kv => docFold B (setKey kv.1 kv.2 acc) gs

/-- The single-level grouping loop shared by the cross-phase and eSTAR paths
of `generate-cross-estar.py`: group rows by the value of `keyField`,
left to right; a row missing `keyField` aborts the run. -/

def groupFold (keyField : Str) (acc : List (Str × List Record)) :
    List Record → Option (List (Str × List Record))
  | [] => some acc
  | c :: cs =>
    match lookup? c keyField with
    | none => none
    | some k => groupFold keyField (addToGroup k c acc) cs

/-- The grouping loop of the cross-phase path (`check_types`), keyed by the
`Check Type` column. -/

def check_types (rows : List Record) : Option (List (Str × List Record)) :=
  groupFold (str "Check Type") [] rows

/-- The grouping loop of the eSTAR path (`sections`), keyed by the
`Check Category` column. -/

def sections (rows : List Record) : Option (List (Str × List Record)) :=
  groupFold (str "Check Category") [] rows

/-- The two-level grouping loop of `generate-all-configs.py` (`phase_data`),
keyed by `Phase` and then `Category`. -/

def phaseData (acc : List (Str × List (Str × List Record))) :
    List Record → Option (List (Str × List (Str × List Record)))
  | [] => some acc
  | c :: cs =>
    match lookup? c (str "Phase"), lookup? c (str "Category") with
    | some p, some cat => phaseData (addToGroup2 p cat c acc) cs
    | _, _ => none

/-- Insert `x` into an already sorted list, before the first element not
below it (the stable insertion step). -/

def insertSorted {α : Type} (le : α → α → Bool) (x : α) : List α → List α
  | [] => [x]
  | y :: ys => if le x y then x :: y :: ys else y :: insertSorted le x ys

/-- Stable insertion sort; models Python `sorted(...)` (any stable sort by a
total preorder computes the same list). -/

def isort {α : Type} (le : α → α → Bool) : List α → List α
  | [] => []
  | x :: xs => insertSorted le x (isort le xs)

/-- Python string comparison `a <= b`: lexicographic on code points. -/

def strLe : Str → Str → Bool
  | [], _ => true
  | _ :: _, [] => false
  | a :: as, b :: bs => if a < b then true else if b < a then false else strLe as bs

/-- Python `sorted(d.items())` for a dict `d` with string keys: tuple
comparison looks at the key first, and keys in a dict are unique, so this is
a sort by key. -/

def sortByKey {β : Type} (l : List (Str × β)) : List (Str × β) :=
  isort (fun x y => strLe x.1 y.1) l

/-- The `llm_validation` sub-structure emitted with every check. -/

structure LlmValidation where
  question : Str
  must_include : List Str

deriving DecidableEq, Inhabited

/-- One entry of `validation_checks` in a phase file emitted by
`generate-all-configs.py` (the dict `check_cfg`). -/

structure AnalysisEntry where
  check_id : Str
  check_name : Str
  severity : Str
  regulatory_source : Str
  source_section : Str
  estar_section : Str
  design_vv_reference : Str
  testing_ref : Str
  llm_validation : LlmValidation
  failure_message : Str
  remediation : List Str
  priority : Str
  automation_feasibility : Str
  notes : Str

deriving DecidableEq, Inhabited

/-- One group of a phase file (`config[cat_key]`). -/

structure AnalysisGroup where
  display_name : Str
  folder_path : Str
  check_count : Nat
  validation_checks : List AnalysisEntry

deriving DecidableEq, Inhabited

/-- One entry of `validation_checks` in `cross-cutting-validation.yaml`. -/

structure CrossEntry where
  check_id : Str
  check_name : Str
  phases_involved : Str
  regulatory_source : Str
  source_section : Str
  estar_section : Str
  design_vv_reference : Str
  llm_validation : LlmValidation
  priority : Str
  automation_feasibility : Str
  notes : Str

deriving DecidableEq, Inhabited

/-- One group of `cross-cutting-validation.yaml` (`cross_config[type_key]`). -/

structure CrossGroup where
  display_name : Str
  check_count : Nat
  validation_checks : List CrossEntry

deriving DecidableEq, Inhabited

/-- One entry of `validation_checks` in `estar-validation.yaml`. -/

structure EstarEntry where
  check_id : Str
  check_name : Str
  estar_section : Str
  fda_guidance : Str
  llm_validation : LlmValidation
  priority : Str
  notes : Str

deriving DecidableEq, Inhabited

/-- One group of `estar-validation.yaml` (`estar_config[section_key]`). -/

structure EstarGroup where
  display_name : Str
  check_count : Nat
  validation_checks : List EstarEntry

deriving DecidableEq, Inhabited

/-- The check identifier of the analysis path:
`f'P{phase_num}-{cat_key[:4].upper()}-{idx:03d}'`. -/

def analysisId (phase_num cat_key : Str) (idx : Nat) : Str :=
  str "P" ++ phase_num ++ str "-" ++ pyUpper (pyTake cat_key 4) ++ str "-" ++ pad3 idx

/-- The check identifier of the cross-phase path:
`f'X-{type_key[:5].upper()}-{idx:03d}'`. -/

def crossId (type_key : Str) (idx : Nat) : Str :=
  str "X-" ++ pyUpper (pyTake type_key 5) ++ str "-" ++ pad3 idx

/-- The check identifier of the eSTAR path:
`f'ESTAR-{section_key[:6].upper()}-{idx:03d}'`. -/

def estarId (section_key : Str) (idx : Nat) : Str :=
  str "ESTAR-" ++ pyUpper (pyTake section_key 6) ++ str "-" ++ pad3 idx

/-- The dict `check_cfg` built for one analysis row (body of the inner loop
of `generate-all-configs.py`); `none` models a `KeyError` on a required
column. -/

def check_cfg (phase_num cat_key : Str) (idx : Nat) (check : Record) :
    Option AnalysisEntry :=
  (lookup? check (str "Draft Analysis Check (for review/editing)")).bind fun draft =>
  (lookup? check (str "Regulatory Source")).bind fun reg =>
  (lookup? check (str "Source Section")).bind fun srcSec =>
  (lookup? check (str "eSTAR Section Relevance")).bind fun est =>
  some
    { check_id := analysisId phase_num cat_key idx
      check_name := pyTake draft 100
      severity := str "high"
      regulatory_source := reg
      source_section := srcSec
      estar_section := est
      design_vv_reference := getD check (str "Design V&V Reference") []
      testing_ref := getD check (str "Testing Ref") []
      llm_validation := { question := draft, must_include := [] }
      failure_message :=
        str "Validation check " ++ analysisId phase_num cat_key idx ++ str " failed"
      remediation :=
        [str "Review regulatory requirements",
         str "Update documentation per guidance"]
      priority := getD check (str "Priority") []
      automation_feasibility := getD check (str "Automation Feasibility") []
      notes := getD check (str "Notes") [] }

/-- Build one group of a phase file from a `(category, checks)` pair
(the body of the `for category, checks in sorted(categories.items())`
loop). -/

def buildCategory (phase_name phase_num : Str) (cat : Str × List Record) :
    Option (Str × AnalysisGroup) :=
  (mapO (fun ic => check_cfg phase_num (safe_key cat.1) ic.1 ic.2)
      (enum1 1 cat.2)).bind fun entries =>
  some (safe_key cat.1,
    { display_name := cat.1
      folder_path := phase_name ++ str "/" ++ cat.1
      check_count := cat.2.length
      validation_checks := entries })

/-- Build one phase file from a `(phase_name, categories)` pair (the body of
the `for phase_name, categories in sorted(phase_data.items())` loop);
the result is keyed by `phase_num = phase_name.split()[-1]`, naming the
output file `phase{phase_num}-validation.yaml`.  The inner `config` dict is
assembled with `config[cat_key] = {...}` (`setKey`), so two categories whose
`safe_key` collide leave only the later category's group in the file. -/

def buildPhase (ph : Str × List (Str × List Record)) :
    Option (Str × List (Str × AnalysisGroup)) :=
  (lastToken ph.1).bind fun phase_num =>
  (docFold (buildCategory ph.1 phase_num) [] (sortByKey ph.2)).bind fun cats =>
  some (phase_num, cats)

/-- The observable result of one run of `generate-all-configs.py`: the
phase files written (keyed by phase number, in the order written) and the
reported final total (`Total: {len(analysis_checks)} checks`). -/

structure AnalysisOutput where
  docs : List (Str × List (Str × AnalysisGroup))
  total : Nat

deriving DecidableEq, Inhabited

/-- The `main` routine of `generate-all-configs.py`, from the parsed CSV rows to the
written documents; `none` models an uncaught exception aborting the run.
The phase files are kept keyed by `phase_num` with `setKey`: the script
writes `phase{phase_num}-validation.yaml` per phase, so a later phase whose
name ends in the same last token overwrites the earlier phase's file. -/

def generate_all_configs (rows : List Record) : Option AnalysisOutput :=
  (phaseData [] rows).bind fun pd =>
  (docFold buildPhase [] (sortByKey pd)).bind fun docs =>
  some { docs := docs, total := rows.length }

/-- The dict appended for one cross-phase row. -/

def crossEntry (type_key : Str) (idx : Nat) (check : Record) :
    Option CrossEntry :=
  (lookup? check (str "Draft Analysis Check (for review/editing)")).bind fun draft =>
  (lookup? check (str "Phases/Categories Involved")).bind fun phases =>
  (lookup? check (str "Regulatory Source")).bind fun reg =>
  (lookup? check (str "Source Section")).bind fun srcSec =>
  (lookup? check (str "eSTAR Section Relevance")).bind fun est =>
  some
    { check_id := crossId type_key idx
      check_name := pyTake draft 100
      phases_involved := phases
      regulatory_source := reg
      source_section := srcSec
      estar_section := est
      design_vv_reference := getD check (str "Design V&V Reference") []
      llm_validation := { question := draft, must_include := [] }
      priority := getD check (str "Priority") []
      automation_feasibility := getD check (str "Automation Feasibility") []
      notes := getD check (str "Notes") [] }

/-- Build one group of `cross-cutting-validation.yaml` from a
`(check_type, checks)` pair. -/

def crossGroupOf (g : Str × List Record) : Option (Str × CrossGroup) :=
  (mapO (fun ic => crossEntry (simple_key g.1) ic.1 ic.2) (enum1 1 g.2)).bind
    fun entries =>
  some (simple_key g.1,
    { display_name := g.1
      check_count := g.2.length
      validation_checks := entries })

/-- The observable result of the cross-phase half of
`generate-cross-estar.py`: the document written and the reported total
(`{len(cross_checks)} checks`). -/

structure CrossOutput where
  doc : List (Str × CrossGroup)
  total : Nat

deriving DecidableEq, Inhabited

/-- The cross-phase half of `generate-cross-estar.py`, from parsed rows to
the written `cross-cutting-validation.yaml`.  The document is assembled with
`cross_config[type_key] = {...}` (`setKey`), so two check types whose
normalized `type_key` collide leave only the later type's group. -/

def generate_cross (rows : List Record) : Option CrossOutput :=
  (check_types rows).bind fun ct =>
  (docFold crossGroupOf [] ct).bind fun doc =>
  some { doc := doc, total := rows.length }

/-- The dict appended for one eSTAR row. -/

def estarEntry (section_key : Str) (idx : Nat) (check : Record) :
    Option EstarEntry :=
  (lookup? check (str "Draft Analysis Check")).bind fun draft =>
  (lookup? check (str "eSTAR Section")).bind fun est =>
  (lookup? check (str "FDA Guidance Reference")).bind fun fda =>
  some
    { check_id := estarId section_key idx
      check_name := pyTake draft 100
      estar_section := est
      fda_guidance := fda
      llm_validation := { question := draft, must_include := [] }
      priority := getD check (str "Priority") []
      notes := getD check (str "Notes") [] }

/-- Build one group of `estar-validation.yaml` from a
`(section, checks)` pair. -/

def estarGroupOf (g : Str × List Record) : Option (Str × EstarGroup) :=
  (mapO (fun ic => estarEntry (simple_key g.1) ic.1 ic.2) (enum1 1 g.2)).bind
    fun entries =>
  some (simple_key g.1,
    { display_name := g.1
      check_count := g.2.length
      validation_checks := entries })

/-- The observable result of the eSTAR half of `generate-cross-estar.py`. -/

structure EstarOutput where
  doc : List (Str × EstarGroup)
  total : Nat

deriving DecidableEq, Inhabited

/-- The eSTAR half of `generate-cross-estar.py`, from parsed rows to the
written `estar-validation.yaml`.  The document is assembled with
`estar_config[section_key] = {...}` (`setKey`), so two categories whose
normalized `section_key` collide leave only the later category's group. -/

def generate_estar (rows : List Record) : Option EstarOutput :=
  (sections rows).bind fun sec =>
  (docFold estarGroupOf [] sec).bind fun doc =>
  some { doc := doc, total := rows.length }

/-- Append a key if not already present (one step of first-seen
deduplication). -/

def insertKey (ks : List Str) (k : Str) : List Str :=
  if k ∈ ks then ks else ks ++ [k]

/-- The distinct values of a list in order of first appearance: the order in
which a left-to-right dict accumulation creates its keys. -/

def dedupFirst (ks : List Str) : List Str := ks.foldl insertKey []

instance : DecidableEq (List (Str × List Record)) := instDecidableEqList

instance : DecidableEq (List (Str × List (Str × List Record))) :=
  instDecidableEqList

instance : DecidableEq (List (Str × AnalysisGroup)) := instDecidableEqList

instance : DecidableEq (List (Str × List (Str × AnalysisGroup))) :=
  instDecidableEqList

instance : DecidableEq (List (Str × CrossGroup)) := instDecidableEqList

instance : DecidableEq (List (Str × EstarGroup)) := instDecidableEqList

/-! ### The decimal formatter `pad3` is injective -/

/-- The rows stored in a one-level grouping structure, in order. -/
def valsOf {β : Type} (gs : List (Str × List β)) : List β :=
  (gs.map (fun g => g.2)).flatten

/-- The rows stored in a two-level grouping structure, in order. -/
def vals2Of (pd : List (Str × List (Str × List Record))) : List Record :=
  (pd.map (fun p => valsOf p.2)).flatten

/-- The two-level key-consistency invariant: each row sits under its own
`Phase` value and, inside it, under its own `Category` value. -/
def Inv2 (pd : List (Str × List (Str × List Record))) : Prop :=
  ∀ g ∈ pd, ∀ cg ∈ g.2, ∀ x ∈ cg.2,
    lookup? x (str "Phase") = some g.1 ∧ lookup? x (str "Category") = some cg.1

/-- Inner category keys are duplicate-free in every phase. -/
def InnerNodup (pd : List (Str × List (Str × List Record))) : Prop :=
  ∀ g ∈ pd, (g.2.map Prod.fst).Nodup

/-- What `safe_key` does to a single (already lower-cased) character:
a space or hyphen becomes an underscore, an ampersand becomes `and`,
parentheses and commas are deleted, and every other character is kept. -/
def safeCharRepl (c : Char) : Str :=
  if c = ' ' then ['_']
  else if c = '&' then str "and"
  else if c = '(' then []
  else if c = ')' then []
  else if c = ',' then []
  else if c = '-' then ['_']
  else [c]

/-- An eSTAR row whose `Check Category` label contains an ampersand. -/
def ampRow : Record :=
  [(str "Check Category", str "A&B"),
   (str "Draft Analysis Check", str "check text"),
   (str "eSTAR Section", str "S1"),
   (str "FDA Guidance Reference", str "G1")]

/-- A sample analysis-checks row with all required columns present and all
optional columns absent. -/
def rowA : Record :=
  [(str "Phase", str "Phase 1"), (str "Category", str "Software"),
   (str "Draft Analysis Check (for review/editing)", str "Check DHF"),
   (str "Regulatory Source", str "21 CFR 820"),
   (str "Source Section", str "820.30"),
   (str "eSTAR Section Relevance", str "SW")]

/-- A sample cross-phase row with all required columns present and all
optional columns absent. -/
def rowX : Record :=
  [(str "Check Type", str "Traceability"),
   (str "Draft Analysis Check (for review/editing)", str "Trace reqs"),
   (str "Phases/Categories Involved", str "All"),
   (str "Regulatory Source", str "ISO 13485"),
   (str "Source Section", str "7.3"),
   (str "eSTAR Section Relevance", str "TR")]

/-- An analysis-checks row whose `Phase` field is all whitespace. -/
def wsRow : Record :=
  [(str "Phase", str "  "), (str "Category", str "X")]

/-- The analysis output on `[rowA]`. -/
def outA : AnalysisOutput := (generate_all_configs [rowA]).getD default

/-- The first phase document of `outA`. -/
def docA : Str × List (Str × AnalysisGroup) := outA.docs.headD default

/-- The first group of `docA`. -/
def grpA : Str × AnalysisGroup := docA.2.headD default

/-- The cross-phase output on `[rowX]`. -/
def outX : CrossOutput := (generate_cross [rowX]).getD default

/-- The grouping structure of the cross-phase path on `[rowX]`. -/
def ctX : List (Str × List Record) := (check_types [rowX]).getD []

/-- The first group of `outX`. -/
def gX : Str × CrossGroup := outX.doc.headD default

/-- The first entry of `gX`. -/
def entX : CrossEntry := gX.2.validation_checks.headD default

/-- The first phase grouping on `[rowA]`. -/
def pdA : List (Str × List (Str × List Record)) := (phaseData [] [rowA]).getD []

/-- A cross-phase row whose `Check Type` is `A B`; its normalized key `a_b`
collides with that of `rowP2`. -/
def rowP1 : Record :=
  [(str "Check Type", str "A B"),
   (str "Draft Analysis Check (for review/editing)", str "first check"),
   (str "Phases/Categories Involved", str "All"),
   (str "Regulatory Source", str "R1"),
   (str "Source Section", str "S1"),
   (str "eSTAR Section Relevance", str "E1")]

/-- A cross-phase row whose `Check Type` is `A_B`; it normalizes to the same
key `a_b` as `rowP1`. -/
def rowP2 : Record :=
  [(str "Check Type", str "A_B"),
   (str "Draft Analysis Check (for review/editing)", str "second check"),
   (str "Phases/Categories Involved", str "All"),
   (str "Regulatory Source", str "R2"),
   (str "Source Section", str "S2"),
   (str "eSTAR Section Relevance", str "E2")]

/-- An analysis row of phase `Phase 1` and category `A B` (key `a_b`). -/
def rowQ1 : Record :=
  [(str "Phase", str "Phase 1"), (str "Category", str "A B"),
   (str "Draft Analysis Check (for review/editing)", str "q1"),
   (str "Regulatory Source", str "R"), (str "Source Section", str "S"),
   (str "eSTAR Section Relevance", str "E")]

/-- An analysis row of phase `Phase 1` and category `AC` (key `ac`). -/
def rowQ2 : Record :=
  [(str "Phase", str "Phase 1"), (str "Category", str "AC"),
   (str "Draft Analysis Check (for review/editing)", str "q2"),
   (str "Regulatory Source", str "R"), (str "Source Section", str "S"),
   (str "eSTAR Section Relevance", str "E")]

/-- An analysis row of phase `Phase 1` and category `A_B`, whose key `a_b`
collides with that of `rowQ1`. -/
def rowQ3 : Record :=
  [(str "Phase", str "Phase 1"), (str "Category", str "A_B"),
   (str "Draft Analysis Check (for review/editing)", str "q3"),
   (str "Regulatory Source", str "R"), (str "Source Section", str "S"),
   (str "eSTAR Section Relevance", str "E")]

theorem digitChar_sub (d : Nat) (h : d < 10) : (Nat.digitChar d).toNat - 48 = d := by
  interval_cases d <;> rfl

theorem foldl_decStep_toDecCore :
    ∀ (fuel n : Nat), n ≤ fuel → ∀ acc : Nat,
      List.foldl decStep acc (toDecCore fuel n) =
        acc * 10 ^ (toDecCore fuel n).length + n := by
  intro fuel
  induction fuel with
  | zero =>
    intro n hn acc
    interval_cases n
    simp [toDecCore]
  | succ f ih =>
    intro n hn acc
    match n with
    | 0 => simp [toDecCore]
    | m + 1 =>
      have hdiv : (m + 1) / 10 ≤ f := by
        have : (m + 1) / 10 < m + 1 := Nat.div_lt_self (Nat.succ_pos m) (by norm_num)
        omega
      have hmod : (m + 1) % 10 < 10 := Nat.mod_lt _ (by norm_num)
      simp only [toDecCore, List.foldl_append, List.foldl_cons, List.foldl_nil,
        List.length_append, List.length_cons, List.length_nil]
      rw [ih _ hdiv acc]
      simp only [decStep, digitChar_sub _ hmod]
      have hdm := Nat.div_add_mod (m + 1) 10
      ring_nf
      omega

theorem decodeDec_toDec (n : Nat) : decodeDec (toDec n) = n := by
  by_cases h : n = 0
  · subst h; rfl
  · unfold decodeDec toDec
    rw [if_neg h, foldl_decStep_toDecCore n n le_rfl 0]
    simp

theorem foldl_decStep_zeros (k : Nat) :
    List.foldl decStep 0 (List.replicate k '0') = 0 := by
  induction k with
  | zero => rfl
  | succ m ih => simpa [List.replicate_succ, decStep] using ih

theorem decodeDec_pad3 (n : Nat) : decodeDec (pad3 n) = n := by
  unfold pad3 decodeDec
  rw [List.foldl_append, foldl_decStep_zeros]
  exact decodeDec_toDec n

theorem pad3_injective : Function.Injective pad3 := by
  intro a b h
  have := congrArg decodeDec h
  rwa [decodeDec_pad3, decodeDec_pad3] at this

theorem append_pad3_injective (a : Str) :
    Function.Injective (fun i => a ++ pad3 i) := by
  intro i j h
  exact pad3_injective (List.append_cancel_left h)

/-! ### `pySplit` on strings with and without a non-whitespace character -/

theorem pySplit_ne_nil (s : Str) (h : ∃ c ∈ s, ¬ pyIsSpace c = true) :
    pySplit s ≠ [] := by
  obtain ⟨c, hc, hcs⟩ := h
  match s with
  | [] => cases hc
  | a :: as =>
    have hd : List.dropWhile pyIsSpace (a :: as) ≠ [] := by
      intro hnil
      exact hcs (List.dropWhile_eq_nil_iff.mp hnil c hc)
    unfold pySplit pySplitCore
    simp only [List.length_cons]
    rcases he : List.dropWhile pyIsSpace (a :: as) with _ | ⟨d, ds⟩
    · exact absurd he hd
    · simp

theorem pySplit_all_space (s : Str) (h : ∀ c ∈ s, pyIsSpace c = true) :
    pySplit s = [] := by
  match s with
  | [] => rfl
  | a :: as =>
    unfold pySplit pySplitCore
    simp only [List.length_cons]
    rw [List.dropWhile_eq_nil_iff.mpr h]

theorem lastToken_isSome (s : Str) (h : ∃ c ∈ s, ¬ pyIsSpace c = true) :
    (lastToken s).isSome := by
  unfold lastToken
  exact List.getLast?_isSome.mpr (pySplit_ne_nil s h)

theorem lastToken_none (s : Str) (h : ∀ c ∈ s, pyIsSpace c = true) :
    lastToken s = none := by
  unfold lastToken
  rw [pySplit_all_space s h]
  rfl

/-! ### Facts about `mapO` and `enum1` -/

theorem mapO_cons {α β : Type} (f : α → Option β) (x : α) (xs : List α) :
    mapO f (x :: xs) =
      (f x).bind fun y => (mapO f xs).bind fun ys => some (y :: ys) := by
  rcases h1 : f x with _ | y <;> rcases h2 : mapO f xs with _ | ys <;>
    simp [mapO, h1, h2]

theorem mapO_length {α β : Type} (f : α → Option β) :
    ∀ (l : List α) (out : List β), mapO f l = some out → out.length = l.length := by
  intro l
  induction l with
  | nil => intro out h; simp [mapO] at h; simp [← h]
  | cons x xs ih =>
    intro out h
    rw [mapO_cons] at h
    simp only [Option.bind_eq_some] at h
    obtain ⟨y, _, ys, hys, hout⟩ := h
    obtain rfl : y :: ys = out := by simpa using hout
    simp [ih ys hys]

theorem mapO_mem {α β : Type} (f : α → Option β) :
    ∀ (l : List α) (out : List β), mapO f l = some out →
      ∀ b ∈ out, ∃ a ∈ l, f a = some b := by
  intro l
  induction l with
  | nil =>
    intro out h b hb
    obtain rfl : ([] : List β) = out := by simpa [mapO] using h
    cases hb
  | cons x xs ih =>
    intro out h b hb
    rw [mapO_cons] at h
    simp only [Option.bind_eq_some] at h
    obtain ⟨y, hy, ys, hys, hout⟩ := h
    obtain rfl : y :: ys = out := by simpa using hout
    rcases List.mem_cons.mp hb with rfl | hb'
    · exact ⟨x, List.mem_cons_self x xs, hy⟩
    · obtain ⟨a, ha, hfa⟩ := ih ys hys b hb'
      exact ⟨a, List.mem_cons_of_mem x ha, hfa⟩

theorem mapO_map {α β γ : Type} (f : α → Option β) (g : β → γ) (h : α → γ) :
    ∀ (l : List α) (out : List β), mapO f l = some out →
      (∀ a ∈ l, ∀ b, f a = some b → g b = h a) → out.map g = l.map h := by
  intro l
  induction l with
  | nil => intro out hm _; simp [mapO] at hm; simp [← hm]
  | cons x xs ih =>
    intro out hm hp
    rw [mapO_cons] at hm
    simp only [Option.bind_eq_some] at hm
    obtain ⟨y, hy, ys, hys, hout⟩ := hm
    obtain rfl : y :: ys = out := by simpa using hout
    simp only [List.map_cons]
    rw [hp x (List.mem_cons_self x xs) y hy,
      ih ys hys (fun a ha b hb => hp a (List.mem_cons_of_mem x ha) b hb)]

theorem enum1_map_fst {α : Type} :
    ∀ (l : List α) (s : Nat), (enum1 s l).map Prod.fst = List.range' s l.length := by
  intro l
  induction l with
  | nil => intro s; rfl
  | cons x xs ih => intro s; simp [enum1, List.range', ih]

theorem mapO_enum_ids {α E : Type} (B : Nat → α → Option E) (fld : E → Str)
    (g : Nat → Str) (hB : ∀ i c e, B i c = some e → fld e = g i) :
    ∀ (l : List α) (s : Nat) (out : List E),
      mapO (fun ic => B ic.1 ic.2) (enum1 s l) = some out →
        out.map fld = (List.range' s l.length).map g := by
  intro l
  induction l with
  | nil => intro s out h; simp [enum1, mapO] at h; simp [← h]
  | cons x xs ih =>
    intro s out h
    simp only [enum1] at h
    rw [mapO_cons] at h
    simp only [Option.bind_eq_some] at h
    obtain ⟨y, hy, ys, hys, hout⟩ := h
    obtain rfl : y :: ys = out := by simpa using hout
    simp only [List.length_cons, List.range'_succ, List.map_cons]
    rw [hB s x y hy, ih (s + 1) ys hys]

/-! ### Facts about dict assignment and the document-assembly fold -/

theorem setKey_mem {G : Type} (k : Str) (v : G) :
    ∀ (acc : List (Str × G)), ∀ kv ∈ setKey k v acc, kv ∈ acc ∨ kv = (k, v) := by
  intro acc
  induction acc with
  | nil =>
    intro kv hkv
    simp only [setKey, List.mem_singleton] at hkv
    exact Or.inr hkv
  | cons p rest ih =>
    obtain ⟨k', v'⟩ := p
    intro kv hkv
    by_cases hk : k = k'
    · simp only [setKey, if_pos hk, List.mem_cons] at hkv
      rcases hkv with rfl | hkv
      · exact Or.inr rfl
      · exact Or.inl (List.mem_cons_of_mem _ hkv)
    · simp only [setKey, if_neg hk, List.mem_cons] at hkv
      rcases hkv with rfl | hkv
      · exact Or.inl (List.mem_cons_self _ _)
      · rcases ih kv hkv with h | h
        · exact Or.inl (List.mem_cons_of_mem _ h)
        · exact Or.inr h

theorem setKey_keys {G : Type} (k : Str) (v : G) :
    ∀ (acc : List (Str × G)),
      (setKey k v acc).map Prod.fst = insertKey (acc.map Prod.fst) k := by
  intro acc
  induction acc with
  | nil => simp [setKey, insertKey]
  | cons p rest ih =>
    obtain ⟨k', v'⟩ := p
    by_cases hk : k = k'
    · subst hk
      have hset : setKey k v ((k, v') :: rest) = (k, v) :: rest := by
        unfold setKey
        rw [if_pos rfl]
      rw [hset]
      have hins : insertKey (((k, v') :: rest).map Prod.fst) k =
          ((k, v') :: rest).map Prod.fst := by
        unfold insertKey
        rw [if_pos]
        exact List.mem_cons_self k _
      rw [hins]
      rfl
    · have hset : setKey k v ((k', v') :: rest) = (k', v') :: setKey k v rest := by
        simp only [setKey]
        rw [if_neg hk]
      rw [hset, List.map_cons, List.map_cons, ih]
      unfold insertKey
      by_cases hmem : k ∈ rest.map Prod.fst
      · rw [if_pos hmem, if_pos (List.mem_cons_of_mem k' hmem)]
      · have hnm : ¬ k ∈ k' :: rest.map Prod.fst := by
          intro hcon
          rcases List.mem_cons.mp hcon with h1 | h1
          · exact hk h1
          · exact hmem h1
        rw [if_neg hmem, if_neg hnm, List.cons_append]

theorem setKey_not_mem {G : Type} (k : Str) (v : G) :
    ∀ (acc : List (Str × G)), k ∉ acc.map Prod.fst →
      setKey k v acc = acc ++ [(k, v)] := by
  intro acc
  induction acc with
  | nil => intro _; rfl
  | cons p rest ih =>
    obtain ⟨k', v'⟩ := p
    intro hk
    simp only [List.map_cons, List.mem_cons] at hk
    push_neg at hk
    simp only [setKey, if_neg hk.1, List.cons_append]
    rw [ih hk.2]

theorem docFold_mem {A G : Type} (B : A → Option (Str × G)) :
    ∀ (l : List A) (acc out : List (Str × G)), docFold B acc l = some out →
      ∀ kv ∈ out, kv ∈ acc ∨ ∃ a ∈ l, B a = some kv := by
  intro l
  induction l with
  | nil =>
    intro acc out h kv hkv
    simp only [docFold, Option.some.injEq] at h
    subst h
    exact Or.inl hkv
  | cons g gs ih =>
    intro acc out h kv hkv
    simp only [docFold, Option.bind_eq_some] at h
    obtain ⟨kv0, hkv0, hrest⟩ := h
    rcases ih (setKey kv0.1 kv0.2 acc) out hrest kv hkv with h1 | h1
    · rcases setKey_mem kv0.1 kv0.2 acc kv h1 with h2 | h2
      · exact Or.inl h2
      · exact Or.inr ⟨g, List.mem_cons_self _ _, by rw [hkv0]; rw [h2]⟩
    · obtain ⟨a, ha, hba⟩ := h1
      exact Or.inr ⟨a, List.mem_cons_of_mem _ ha, hba⟩

theorem docFold_mem_nil {A G : Type} (B : A → Option (Str × G))
    (l : List A) (out : List (Str × G)) (h : docFold B [] l = some out) :
    ∀ kv ∈ out, ∃ a ∈ l, B a = some kv := by
  intro kv hkv
  rcases docFold_mem B l [] out h kv hkv with habs | h1
  · cases habs
  · exact h1

theorem docFold_keys {A G : Type} (B : A → Option (Str × G)) :
    ∀ (l : List A) (acc out : List (Str × G)), docFold B acc l = some out →
      ∃ kvs, mapO B l = some kvs ∧
        out.map Prod.fst = (kvs.map Prod.fst).foldl insertKey (acc.map Prod.fst) := by
  intro l
  induction l with
  | nil =>
    intro acc out h
    simp only [docFold, Option.some.injEq] at h
    subst h
    exact ⟨[], rfl, rfl⟩
  | cons g gs ih =>
    intro acc out h
    simp only [docFold, Option.bind_eq_some] at h
    obtain ⟨kv0, hkv0, hrest⟩ := h
    obtain ⟨kvs, hkvs, hkeys⟩ := ih (setKey kv0.1 kv0.2 acc) out hrest
    refine ⟨kv0 :: kvs, ?_, ?_⟩
    · simp [mapO_cons, hkv0, hkvs]
    · simp only [List.map_cons, List.foldl_cons]
      rw [hkeys, setKey_keys]

theorem docFold_append {A G : Type} (B : A → Option (Str × G)) :
    ∀ (l : List A) (acc out : List (Str × G)),
      docFold B acc l = some out →
      (∀ a ∈ l, ∀ kv, B a = some kv → kv.1 ∉ acc.map Prod.fst) →
      List.Pairwise
        (fun a1 a2 => ∀ kv1 kv2, B a1 = some kv1 → B a2 = some kv2 →
          kv1.1 ≠ kv2.1) l →
      ∃ navs, mapO B l = some navs ∧ out = acc ++ navs := by
  intro l
  induction l with
  | nil =>
    intro acc out h _ _
    simp only [docFold, Option.some.injEq] at h
    subst h
    exact ⟨[], rfl, by rw [List.append_nil]⟩
  | cons g gs ih =>
    intro acc out h hfresh hpw
    simp only [docFold, Option.bind_eq_some] at h
    obtain ⟨kv0, hkv0, hrest⟩ := h
    rw [List.pairwise_cons] at hpw
    obtain ⟨hg, hgs⟩ := hpw
    have hset : setKey kv0.1 kv0.2 acc = acc ++ [kv0] := by
      rw [setKey_not_mem kv0.1 kv0.2 acc
        (hfresh g (List.mem_cons_self _ _) kv0 hkv0)]
    rw [hset] at hrest
    have hfresh' : ∀ a ∈ gs, ∀ kv, B a = some kv →
        kv.1 ∉ (acc ++ [kv0]).map Prod.fst := by
      intro a ha kv hkv
      simp only [List.map_append, List.mem_append, List.map_cons, List.map_nil,
        List.mem_singleton]
      push_neg
      exact ⟨hfresh a (List.mem_cons_of_mem _ ha) kv hkv,
        fun he => (hg a ha kv0 kv hkv0 hkv) he.symm⟩
    obtain ⟨navs, hnavs, hout⟩ := ih (acc ++ [kv0]) out hrest hfresh' hgs
    refine ⟨kv0 :: navs, ?_, ?_⟩
    · simp [mapO_cons, hkv0, hnavs]
    · rw [hout, List.append_assoc]
      rfl

/-! ### Facts about the grouping folds -/

theorem addToGroup_vals_perm {β : Type} (k : Str) (v : β) :
    ∀ acc, List.Perm (valsOf (addToGroup k v acc)) (valsOf acc ++ [v]) := by
  intro acc
  induction acc with
  | nil => simp [addToGroup, valsOf]
  | cons g rest ih =>
    obtain ⟨k', vs⟩ := g
    by_cases hk : k = k'
    · simp only [addToGroup, if_pos hk, valsOf, List.map_cons, List.flatten_cons]
      rw [List.append_assoc, List.append_assoc]
      exact List.Perm.append_left vs (List.perm_append_comm)
    · simp only [addToGroup, if_neg hk, valsOf, List.map_cons, List.flatten_cons]
      rw [List.append_assoc]
      exact List.Perm.append_left vs ih

theorem addToGroup_keys {β : Type} (k : Str) (v : β) :
    ∀ acc, (addToGroup k v acc).map Prod.fst = insertKey (acc.map Prod.fst) k := by
  intro acc
  induction acc with
  | nil => simp [addToGroup, insertKey]
  | cons g rest ih =>
    obtain ⟨k', vs⟩ := g
    by_cases hk : k = k'
    · simp [addToGroup, if_pos hk, insertKey, hk]
    · simp only [addToGroup, if_neg hk, List.map_cons, ih, insertKey]
      by_cases hmem : k ∈ rest.map Prod.fst
      · simp [hmem, hk]
      · have : ¬ k ∈ k' :: rest.map Prod.fst := by
          simp [hk, hmem]
        simp [hmem, this]

theorem insertKey_nodup (ks : List Str) (k : Str) (h : ks.Nodup) :
    (insertKey ks k).Nodup := by
  unfold insertKey
  by_cases hmem : k ∈ ks
  · simpa [hmem] using h
  · simp only [hmem, if_false]
    refine List.nodup_append.mpr ⟨h, List.nodup_singleton k, ?_⟩
    intro a ha hak
    rw [List.mem_singleton] at hak
    subst hak
    exact hmem ha

theorem addToGroup_inv {β : Type} (P : Str → β → Prop) (k : Str) (v : β)
    (hv : P k v) :
    ∀ acc, (∀ g ∈ acc, ∀ x ∈ g.2, P g.1 x) →
      ∀ g ∈ addToGroup k v acc, ∀ x ∈ g.2, P g.1 x := by
  intro acc
  induction acc with
  | nil =>
    intro _ g hg x hx
    simp only [addToGroup, List.mem_singleton] at hg
    subst hg
    simp only [List.mem_singleton] at hx
    subst hx
    exact hv
  | cons g0 rest ih =>
    obtain ⟨k', vs⟩ := g0
    intro hacc g hg x hx
    by_cases hk : k = k'
    · simp only [addToGroup, if_pos hk, List.mem_cons] at hg
      rcases hg with rfl | hg
      · simp only [List.mem_append, List.mem_singleton] at hx
        rcases hx with hx | rfl
        · exact hacc (k', vs) (List.mem_cons_self _ _) x hx
        · exact hk ▸ hv
      · exact hacc g (List.mem_cons_of_mem _ hg) x hx
    · simp only [addToGroup, if_neg hk, List.mem_cons] at hg
      rcases hg with rfl | hg
      · exact hacc (k', vs) (List.mem_cons_self _ _) x hx
      · exact ih (fun g' hg' => hacc g' (List.mem_cons_of_mem _ hg')) g hg x hx

theorem groupFold_perm (F : Str) :
    ∀ (rows : List Record) (acc gs : List (Str × List Record)),
      groupFold F acc rows = some gs →
        List.Perm (valsOf gs) (valsOf acc ++ rows) := by
  intro rows
  induction rows with
  | nil =>
    intro acc gs h
    simp only [groupFold, Option.some.injEq] at h
    subst h
    simp
  | cons c cs ih =>
    intro acc gs h
    simp only [groupFold] at h
    rcases hl : lookup? c F with _ | k
    · rw [hl] at h; cases h
    · rw [hl] at h
      have := ih (addToGroup k c acc) gs h
      refine this.trans ?_
      calc List.Perm (valsOf (addToGroup k c acc) ++ cs)
            ((valsOf acc ++ [c]) ++ cs) :=
        List.Perm.append_right cs (addToGroup_vals_perm k c acc)
        _ = valsOf acc ++ (c :: cs) := by simp

theorem groupFold_keys (F : Str) :
    ∀ (rows : List Record) (acc gs : List (Str × List Record)),
      groupFold F acc rows = some gs →
        ∃ ks, mapO (fun c => lookup? c F) rows = some ks ∧
          gs.map Prod.fst = ks.foldl insertKey (acc.map Prod.fst) := by
  intro rows
  induction rows with
  | nil =>
    intro acc gs h
    simp only [groupFold, Option.some.injEq] at h
    subst h
    exact ⟨[], rfl, rfl⟩
  | cons c cs ih =>
    intro acc gs h
    simp only [groupFold] at h
    rcases hl : lookup? c F with _ | k
    · rw [hl] at h; cases h
    · rw [hl] at h
      obtain ⟨ks, hks, hkeys⟩ := ih (addToGroup k c acc) gs h
      refine ⟨k :: ks, ?_, ?_⟩
      · simp [mapO_cons, hl, hks]
      · simp only [List.foldl_cons]
        rw [hkeys, addToGroup_keys]

theorem groupFold_inv (F : Str) :
    ∀ (rows : List Record) (acc gs : List (Str × List Record)),
      (∀ g ∈ acc, ∀ x ∈ g.2, lookup? x F = some g.1) →
      groupFold F acc rows = some gs →
        ∀ g ∈ gs, ∀ x ∈ g.2, lookup? x F = some g.1 := by
  intro rows
  induction rows with
  | nil =>
    intro acc gs hacc h
    simp only [groupFold, Option.some.injEq] at h
    subst h
    exact hacc
  | cons c cs ih =>
    intro acc gs hacc h
    simp only [groupFold] at h
    rcases hl : lookup? c F with _ | k
    · rw [hl] at h; cases h
    · rw [hl] at h
      exact ih (addToGroup k c acc)  gs
        (addToGroup_inv (fun k' x => lookup? x F = some k') k c hl acc hacc) h

theorem foldl_insertKey_nodup :
    ∀ (ks init : List Str), init.Nodup → (ks.foldl insertKey init).Nodup := by
  intro ks
  induction ks with
  | nil => intro init h; exact h
  | cons k rest ih =>
    intro init h
    simp only [List.foldl_cons]
    exact ih (insertKey init k) (insertKey_nodup init k h)

theorem addToGroup2_vals_perm (p c : Str) (v : Record) :
    ∀ pd, List.Perm (vals2Of (addToGroup2 p c v pd)) (vals2Of pd ++ [v]) := by
  intro pd
  induction pd with
  | nil => simp [addToGroup2, vals2Of, valsOf, addToGroup]
  | cons g rest ih =>
    obtain ⟨p', cats⟩ := g
    by_cases hp : p = p'
    · simp only [addToGroup2, if_pos hp, vals2Of, List.map_cons, List.flatten_cons]
      rw [List.append_assoc]
      refine (List.Perm.append_right _ (addToGroup_vals_perm c v cats)).trans ?_
      rw [List.append_assoc]
      exact List.Perm.append_left _ (List.perm_append_comm)
    · simp only [addToGroup2, if_neg hp, vals2Of, List.map_cons, List.flatten_cons]
      rw [List.append_assoc]
      exact List.Perm.append_left _ ih

theorem addToGroup2_keys (p c : Str) (v : Record) :
    ∀ pd, (addToGroup2 p c v pd).map Prod.fst = insertKey (pd.map Prod.fst) p := by
  intro pd
  induction pd with
  | nil => simp [addToGroup2, insertKey]
  | cons g rest ih =>
    obtain ⟨p', cats⟩ := g
    by_cases hp : p = p'
    · simp [addToGroup2, if_pos hp, insertKey, hp]
    · simp only [addToGroup2, if_neg hp, List.map_cons, ih, insertKey]
      by_cases hmem : p ∈ rest.map Prod.fst
      · simp [hmem, hp]
      · have : ¬ p ∈ p' :: rest.map Prod.fst := by simp [hp, hmem]
        simp [hmem, this]

theorem addToGroup2_inv (p c : Str) (v : Record)
    (hp : lookup? v (str "Phase") = some p)
    (hc : lookup? v (str "Category") = some c) :
    ∀ pd, Inv2 pd → Inv2 (addToGroup2 p c v pd) := by
  intro pd
  induction pd with
  | nil =>
    intro _ g hg cg hcg x hx
    simp only [addToGroup2, List.mem_singleton] at hg
    subst hg
    simp only [addToGroup, List.mem_singleton] at hcg
    subst hcg
    simp only [List.mem_singleton] at hx
    subst hx
    exact ⟨hp, hc⟩
  | cons g0 rest ih =>
    obtain ⟨p', cats⟩ := g0
    intro hpd g hg cg hcg x hx
    by_cases hpe : p = p'
    · simp only [addToGroup2, if_pos hpe, List.mem_cons] at hg
      rcases hg with rfl | hg
      · have inner := addToGroup_inv
          (fun k x => lookup? x (str "Category") = some k) c v hc cats
          (fun cg' hcg' x' hx' =>
            (hpd (p', cats) (List.mem_cons_self _ _) cg' hcg' x' hx').2)
        refine ⟨?_, inner cg hcg x hx⟩
        have hmem := addToGroup_vals_perm c v cats |>.mem_iff.mp
          (by simpa [valsOf] using
            (show x ∈ valsOf (addToGroup c v cats) by
              simp only [valsOf, List.mem_flatten]
              exact ⟨cg.2, List.mem_map_of_mem _ hcg, hx⟩))
        simp only [List.mem_append, List.mem_singleton] at hmem
        rcases hmem with hmem | rfl
        · simp only [valsOf, List.mem_flatten, List.mem_map] at hmem
          obtain ⟨l, ⟨cg', hcg', rfl⟩, hxl⟩ := hmem
          exact (hpd (p', cats) (List.mem_cons_self _ _) cg' hcg' x hxl).1
        · exact hpe ▸ hp
      · exact hpd g (List.mem_cons_of_mem _ hg) cg hcg x hx
    · simp only [addToGroup2, if_neg hpe, List.mem_cons] at hg
      rcases hg with rfl | hg
      · exact hpd (p', cats) (List.mem_cons_self _ _) cg hcg x hx
      · exact ih (fun g' hg' => hpd g' (List.mem_cons_of_mem _ hg')) g hg cg hcg x hx

theorem addToGroup2_inner_nodup (p c : Str) (v : Record) :
    ∀ pd, InnerNodup pd → InnerNodup (addToGroup2 p c v pd) := by
  intro pd
  induction pd with
  | nil =>
    intro _ g hg
    simp only [addToGroup2, List.mem_singleton] at hg
    subst hg
    simp [addToGroup]
  | cons g0 rest ih =>
    obtain ⟨p', cats⟩ := g0
    intro hpd g hg
    by_cases hp : p = p'
    · simp only [addToGroup2, if_pos hp, List.mem_cons] at hg
      rcases hg with rfl | hg
      · rw [addToGroup_keys]
        exact insertKey_nodup _ _ (hpd (p', cats) (List.mem_cons_self _ _))
      · exact hpd g (List.mem_cons_of_mem _ hg)
    · simp only [addToGroup2, if_neg hp, List.mem_cons] at hg
      rcases hg with rfl | hg
      · exact hpd (p', cats) (List.mem_cons_self _ _)
      · exact ih (fun g' hg' => hpd g' (List.mem_cons_of_mem _ hg')) g hg

theorem phaseData_perm :
    ∀ (rows : List Record) (acc pd : List (Str × List (Str × List Record))),
      phaseData acc rows = some pd →
        List.Perm (vals2Of pd) (vals2Of acc ++ rows) := by
  intro rows
  induction rows with
  | nil =>
    intro acc pd h
    simp only [phaseData, Option.some.injEq] at h
    subst h
    simp
  | cons c cs ih =>
    intro acc pd h
    simp only [phaseData] at h
    rcases hp : lookup? c (str "Phase") with _ | p <;> rw [hp] at h
    · cases h
    · rcases hc : lookup? c (str "Category") with _ | cat <;> rw [hc] at h
      · cases h
      · have := ih (addToGroup2 p cat c acc) pd h
        refine this.trans ?_
        calc List.Perm (vals2Of (addToGroup2 p cat c acc) ++ cs)
              ((vals2Of acc ++ [c]) ++ cs) :=
          List.Perm.append_right cs (addToGroup2_vals_perm p cat c acc)
          _ = vals2Of acc ++ (c :: cs) := by simp

theorem phaseData_inv :
    ∀ (rows : List Record) (acc pd : List (Str × List (Str × List Record))),
      Inv2 acc → phaseData acc rows = some pd → Inv2 pd := by
  intro rows
  induction rows with
  | nil =>
    intro acc pd hacc h
    simp only [phaseData, Option.some.injEq] at h
    subst h
    exact hacc
  | cons c cs ih =>
    intro acc pd hacc h
    simp only [phaseData] at h
    rcases hp : lookup? c (str "Phase") with _ | p <;> rw [hp] at h
    · cases h
    · rcases hc : lookup? c (str "Category") with _ | cat <;> rw [hc] at h
      · cases h
      · exact ih (addToGroup2 p cat c acc) pd
          (addToGroup2_inv p cat c hp hc acc hacc) h

theorem phaseData_keys :
    ∀ (rows : List Record) (acc pd : List (Str × List (Str × List Record))),
      phaseData acc rows = some pd →
        ∃ ks : List Str, pd.map Prod.fst = ks.foldl insertKey (acc.map Prod.fst) := by
  intro rows
  induction rows with
  | nil =>
    intro acc pd h
    simp only [phaseData, Option.some.injEq] at h
    subst h
    exact ⟨[], rfl⟩
  | cons c cs ih =>
    intro acc pd h
    simp only [phaseData] at h
    rcases hp : lookup? c (str "Phase") with _ | p <;> rw [hp] at h
    · cases h
    · rcases hc : lookup? c (str "Category") with _ | cat <;> rw [hc] at h
      · cases h
      · obtain ⟨ks, hks⟩ := ih (addToGroup2 p cat c acc) pd h
        exact ⟨p :: ks, by simpa [addToGroup2_keys] using hks⟩

theorem phaseData_inner_nodup :
    ∀ (rows : List Record) (acc pd : List (Str × List (Str × List Record))),
      InnerNodup acc → phaseData acc rows = some pd → InnerNodup pd := by
  intro rows
  induction rows with
  | nil =>
    intro acc pd hacc h
    simp only [phaseData, Option.some.injEq] at h
    subst h
    exact hacc
  | cons c cs ih =>
    intro acc pd hacc h
    simp only [phaseData] at h
    rcases hp : lookup? c (str "Phase") with _ | p <;> rw [hp] at h
    · cases h
    · rcases hc : lookup? c (str "Category") with _ | cat <;> rw [hc] at h
      · cases h
      · exact ih (addToGroup2 p cat c acc) pd
          (addToGroup2_inner_nodup p cat c acc hacc) h

/-! ### The lexicographic order on strings and the stable sort -/

theorem strLe_refl : ∀ a : Str, strLe a a = true := by
  intro a
  induction a with
  | nil => rfl
  | cons c cs ih => simp [strLe, ih]

theorem strLe_total : ∀ a b : Str, strLe a b = true ∨ strLe b a = true := by
  intro a
  induction a with
  | nil => intro b; left; rfl
  | cons c cs ih =>
    intro b
    match b with
    | [] => right; rfl
    | d :: ds =>
      by_cases h1 : c < d
      · left; simp [strLe, h1]
      · by_cases h2 : d < c
        · right; simp [strLe, h2]
        · have hcd : c = d := le_antisymm (not_lt.mp h2) (not_lt.mp h1)
          subst hcd
          rcases ih ds with h | h
          · left; simp [strLe, h]
          · right; simp [strLe, h]

theorem strLe_trans :
    ∀ a b c : Str, strLe a b = true → strLe b c = true → strLe a c = true := by
  intro a
  induction a with
  | nil => intro b c _ _; rfl
  | cons x xs ih =>
    intro b c hab hbc
    match b, c with
    | [], _ => simp [strLe] at hab
    | _ :: _, [] => simp [strLe] at hbc
    | y :: ys, z :: zs =>
      by_cases hxy : x < y
      · have hyz : y < z ∨ y = z := by
          by_cases h1 : y < z
          · exact Or.inl h1
          · by_cases h2 : z < y
            · simp [strLe, h1, h2, not_lt.mp h1] at hbc
            · exact Or.inr (le_antisymm (not_lt.mp h2) (not_lt.mp h1))
        have hxz : x < z := by
          rcases hyz with h | h
          · exact lt_trans hxy h
          · exact h ▸ hxy
        simp [strLe, hxz]
      · by_cases hyx : y < x
        · simp [strLe, hxy, hyx] at hab
        · have hxy' : x = y := le_antisymm (not_lt.mp hyx) (not_lt.mp hxy)
          subst hxy'
          simp only [strLe, if_neg hxy, if_neg hyx] at hab
          by_cases hxz : x < z
          · simp [strLe, hxz]
          · by_cases hzx : z < x
            · simp [strLe, hxz, hzx] at hbc
            · simp only [strLe, if_neg hxz, if_neg hzx] at hbc ⊢
              exact ih ys zs hab hbc

theorem insertSorted_perm {α : Type} (le : α → α → Bool) (x : α) :
    ∀ l, List.Perm (insertSorted le x l) (x :: l) := by
  intro l
  induction l with
  | nil => simp [insertSorted]
  | cons y ys ih =>
    by_cases h : le x y
    · simp [insertSorted, h]
    · simp only [insertSorted, if_neg h]
      exact (List.Perm.cons y ih).trans (List.Perm.swap x y ys)

theorem isort_perm {α : Type} (le : α → α → Bool) :
    ∀ l, List.Perm (isort le l) l := by
  intro l
  induction l with
  | nil => simp [isort]
  | cons x xs ih =>
    exact (insertSorted_perm le x (isort le xs)).trans (List.Perm.cons x ih)

theorem insertSorted_pairwise {α : Type} (le : α → α → Bool)
    (htot : ∀ a b, le a b = true ∨ le b a = true)
    (htr : ∀ a b c, le a b = true → le b c = true → le a c = true) (x : α) :
    ∀ l, List.Pairwise (fun a b => le a b = true) l →
      List.Pairwise (fun a b => le a b = true) (insertSorted le x l) := by
  intro l
  induction l with
  | nil => intro _; simp [insertSorted]
  | cons y ys ih =>
    intro hp
    rw [List.pairwise_cons] at hp
    obtain ⟨hy, hys⟩ := hp
    by_cases h : le x y
    · simp only [insertSorted, if_pos h]
      rw [List.pairwise_cons]
      refine ⟨?_, List.pairwise_cons.mpr ⟨hy, hys⟩⟩
      intro z hz
      rcases List.mem_cons.mp hz with rfl | hz'
      · exact h
      · exact htr x y z h (hy z hz')
    · simp only [insertSorted, if_neg h]
      rw [List.pairwise_cons]
      refine ⟨?_, ih hys⟩
      intro z hz
      have hz' := (insertSorted_perm le x ys).mem_iff.mp hz
      rcases List.mem_cons.mp hz' with rfl | hz''
      · rcases htot z y with h1 | h1
        · exact absurd h1 (by simpa using h)
        · exact h1
      · exact hy z hz''

theorem isort_pairwise {α : Type} (le : α → α → Bool)
    (htot : ∀ a b, le a b = true ∨ le b a = true)
    (htr : ∀ a b c, le a b = true → le b c = true → le a c = true) :
    ∀ l, List.Pairwise (fun a b => le a b = true) (isort le l) := by
  intro l
  induction l with
  | nil => simp [isort]
  | cons x xs ih => exact insertSorted_pairwise le htot htr x (isort le xs) ih

theorem sortByKey_perm {β : Type} (l : List (Str × β)) :
    List.Perm (sortByKey l) l := isort_perm _ l

theorem sortByKey_sorted {β : Type} (l : List (Str × β)) :
    List.Pairwise (fun a b => strLe a.1 b.1 = true) (sortByKey l) := by
  refine isort_pairwise _ ?_ ?_ l
  · intro a b; exact strLe_total a.1 b.1
  · intro a b c hab hbc; exact strLe_trans a.1 b.1 c.1 hab hbc

/-! ### Specifications of the per-row entry builders -/

theorem take100_eq_iff (d : Str) : d.take 100 = d ↔ d.length ≤ 100 := by
  constructor
  · intro h
    have := congrArg List.length h
    rw [List.length_take] at this
    omega
  · intro h
    exact List.take_of_length_le h

theorem check_cfg_spec (pn k : Str) (i : Nat) (c : Record) (e : AnalysisEntry)
    (h : check_cfg pn k i c = some e) :
    e.check_id = analysisId pn k i ∧
    (∃ d, lookup? c (str "Draft Analysis Check (for review/editing)") = some d ∧
      e.check_name = pyTake d 100 ∧ e.llm_validation.question = d) ∧
    e.priority = getD c (str "Priority") [] ∧
    e.automation_feasibility = getD c (str "Automation Feasibility") [] ∧
    e.notes = getD c (str "Notes") [] ∧
    e.design_vv_reference = getD c (str "Design V&V Reference") [] ∧
    e.testing_ref = getD c (str "Testing Ref") [] := by
  simp only [check_cfg, Option.bind_eq_some] at h
  obtain ⟨d, hd, reg, hreg, s, hs, est, hest, he⟩ := h
  obtain rfl : _ = e := by simpa using he
  exact ⟨rfl, ⟨d, hd, rfl, rfl⟩, rfl, rfl, rfl, rfl, rfl⟩

theorem check_cfg_isSome (pn k : Str) (i : Nat) (c : Record)
    (hd : (lookup? c (str "Draft Analysis Check (for review/editing)")).isSome)
    (hr : (lookup? c (str "Regulatory Source")).isSome)
    (hs : (lookup? c (str "Source Section")).isSome)
    (he : (lookup? c (str "eSTAR Section Relevance")).isSome) :
    (check_cfg pn k i c).isSome := by
  obtain ⟨d, hd⟩ := Option.isSome_iff_exists.mp hd
  obtain ⟨r, hr⟩ := Option.isSome_iff_exists.mp hr
  obtain ⟨s, hs⟩ := Option.isSome_iff_exists.mp hs
  obtain ⟨e, he⟩ := Option.isSome_iff_exists.mp he
  simp [check_cfg, hd, hr, hs, he]

theorem crossEntry_spec (k : Str) (i : Nat) (c : Record) (e : CrossEntry)
    (h : crossEntry k i c = some e) :
    e.check_id = crossId k i ∧
    (∃ d, lookup? c (str "Draft Analysis Check (for review/editing)") = some d ∧
      e.check_name = pyTake d 100 ∧ e.llm_validation.question = d) ∧
    e.priority = getD c (str "Priority") [] ∧
    e.automation_feasibility = getD c (str "Automation Feasibility") [] ∧
    e.notes = getD c (str "Notes") [] ∧
    e.design_vv_reference = getD c (str "Design V&V Reference") [] := by
  simp only [crossEntry, Option.bind_eq_some] at h
  obtain ⟨d, hd, ph, hph, reg, hreg, s, hs, est, hest, he⟩ := h
  obtain rfl : _ = e := by simpa using he
  exact ⟨rfl, ⟨d, hd, rfl, rfl⟩, rfl, rfl, rfl, rfl⟩

theorem crossEntry_isSome (k : Str) (i : Nat) (c : Record)
    (hd : (lookup? c (str "Draft Analysis Check (for review/editing)")).isSome)
    (hp : (lookup? c (str "Phases/Categories Involved")).isSome)
    (hr : (lookup? c (str "Regulatory Source")).isSome)
    (hs : (lookup? c (str "Source Section")).isSome)
    (he : (lookup? c (str "eSTAR Section Relevance")).isSome) :
    (crossEntry k i c).isSome := by
  obtain ⟨d, hd⟩ := Option.isSome_iff_exists.mp hd
  obtain ⟨p, hp⟩ := Option.isSome_iff_exists.mp hp
  obtain ⟨r, hr⟩ := Option.isSome_iff_exists.mp hr
  obtain ⟨s, hs⟩ := Option.isSome_iff_exists.mp hs
  obtain ⟨e, he⟩ := Option.isSome_iff_exists.mp he
  simp [crossEntry, hd, hp, hr, hs, he]

theorem estarEntry_spec (k : Str) (i : Nat) (c : Record) (e : EstarEntry)
    (h : estarEntry k i c = some e) :
    e.check_id = estarId k i ∧
    (∃ d, lookup? c (str "Draft Analysis Check") = some d ∧
      e.check_name = pyTake d 100 ∧ e.llm_validation.question = d) ∧
    e.priority = getD c (str "Priority") [] ∧
    e.notes = getD c (str "Notes") [] := by
  simp only [estarEntry, Option.bind_eq_some] at h
  obtain ⟨d, hd, est, hest, f, hf, he⟩ := h
  obtain rfl : _ = e := by simpa using he
  exact ⟨rfl, ⟨d, hd, rfl, rfl⟩, rfl, rfl⟩

theorem estarEntry_isSome (k : Str) (i : Nat) (c : Record)
    (hd : (lookup? c (str "Draft Analysis Check")).isSome)
    (he : (lookup? c (str "eSTAR Section")).isSome)
    (hf : (lookup? c (str "FDA Guidance Reference")).isSome) :
    (estarEntry k i c).isSome := by
  obtain ⟨d, hd⟩ := Option.isSome_iff_exists.mp hd
  obtain ⟨e, he⟩ := Option.isSome_iff_exists.mp he
  obtain ⟨f, hf⟩ := Option.isSome_iff_exists.mp hf
  simp [estarEntry, hd, he, hf]

/-! ### Specifications of the group and document builders -/

theorem crossGroupOf_spec (g : Str × List Record) (k : Str) (cg : CrossGroup)
    (h : crossGroupOf g = some (k, cg)) :
    k = simple_key g.1 ∧ cg.display_name = g.1 ∧ cg.check_count = g.2.length ∧
    mapO (fun ic => crossEntry (simple_key g.1) ic.1 ic.2) (enum1 1 g.2) =
      some cg.validation_checks := by
  simp only [crossGroupOf, Option.bind_eq_some] at h
  obtain ⟨entries, hent, he⟩ := h
  obtain ⟨rfl, rfl⟩ : simple_key g.1 = k ∧ _ = cg := by simpa using he
  exact ⟨rfl, rfl, rfl, hent⟩

theorem estarGroupOf_spec (g : Str × List Record) (k : Str) (eg : EstarGroup)
    (h : estarGroupOf g = some (k, eg)) :
    k = simple_key g.1 ∧ eg.display_name = g.1 ∧ eg.check_count = g.2.length ∧
    mapO (fun ic => estarEntry (simple_key g.1) ic.1 ic.2) (enum1 1 g.2) =
      some eg.validation_checks := by
  simp only [estarGroupOf, Option.bind_eq_some] at h
  obtain ⟨entries, hent, he⟩ := h
  obtain ⟨rfl, rfl⟩ : simple_key g.1 = k ∧ _ = eg := by simpa using he
  exact ⟨rfl, rfl, rfl, hent⟩

theorem buildCategory_spec (pname pn : Str) (cat : Str × List Record)
    (k : Str) (ag : AnalysisGroup)
    (h : buildCategory pname pn cat = some (k, ag)) :
    k = safe_key cat.1 ∧ ag.display_name = cat.1 ∧ ag.check_count = cat.2.length ∧
    mapO (fun ic => check_cfg pn (safe_key cat.1) ic.1 ic.2) (enum1 1 cat.2) =
      some ag.validation_checks := by
  simp only [buildCategory, Option.bind_eq_some] at h
  obtain ⟨entries, hent, he⟩ := h
  obtain ⟨rfl, rfl⟩ : safe_key cat.1 = k ∧ _ = ag := by simpa using he
  exact ⟨rfl, rfl, rfl, hent⟩

theorem buildPhase_spec (ph : Str × List (Str × List Record))
    (pn : Str) (doc : List (Str × AnalysisGroup))
    (h : buildPhase ph = some (pn, doc)) :
    lastToken ph.1 = some pn ∧
    docFold (buildCategory ph.1 pn) [] (sortByKey ph.2) = some doc := by
  simp only [buildPhase, Option.bind_eq_some] at h
  obtain ⟨pn', hpn, cats, hcats, he⟩ := h
  obtain ⟨rfl, rfl⟩ : pn' = pn ∧ cats = doc := by simpa using he
  exact ⟨hpn, hcats⟩

/-! ### Decomposition of the three pipelines -/

theorem generate_cross_parts (rows : List Record) (out : CrossOutput)
    (h : generate_cross rows = some out) :
    ∃ ct, check_types rows = some ct ∧
      docFold crossGroupOf [] ct = some out.doc ∧ out.total = rows.length := by
  simp only [generate_cross, Option.bind_eq_some] at h
  obtain ⟨ct, hct, doc, hdoc, he⟩ := h
  obtain rfl : _ = out := by simpa using he
  exact ⟨ct, hct, hdoc, rfl⟩

theorem generate_estar_parts (rows : List Record) (out : EstarOutput)
    (h : generate_estar rows = some out) :
    ∃ sec, sections rows = some sec ∧
      docFold estarGroupOf [] sec = some out.doc ∧ out.total = rows.length := by
  simp only [generate_estar, Option.bind_eq_some] at h
  obtain ⟨sec, hsec, doc, hdoc, he⟩ := h
  obtain rfl : _ = out := by simpa using he
  exact ⟨sec, hsec, hdoc, rfl⟩

theorem generate_all_parts (rows : List Record) (out : AnalysisOutput)
    (h : generate_all_configs rows = some out) :
    ∃ pd, phaseData [] rows = some pd ∧
      docFold buildPhase [] (sortByKey pd) = some out.docs ∧ out.total = rows.length := by
  simp only [generate_all_configs, Option.bind_eq_some] at h
  obtain ⟨pd, hpd, docs, hdocs, he⟩ := h
  obtain rfl : _ = out := by simpa using he
  exact ⟨pd, hpd, hdocs, rfl⟩

/-! ### Character-wise characterization of the key normalizations -/

theorem replaceChar_append (o : Char) (n a b : Str) :
    replaceChar o n (a ++ b) = replaceChar o n a ++ replaceChar o n b := by
  simp [replaceChar]

theorem replaceChar_singleton (o : Char) (n : Str) (c : Char) :
    replaceChar o n [c] = if c = o then n else [c] := by
  by_cases h : c = o <;> simp [replaceChar, h]

theorem safe_key_char (c : Char) :
    replaceChar ',' []
      (replaceChar '-' ['_']
        (replaceChar ')' []
          (replaceChar '(' []
            (replaceChar '&' (str "and")
              (replaceChar ' ' ['_'] [c]))))) = safeCharRepl c := by
  by_cases h1 : c = ' '
  · subst h1; rfl
  · by_cases h2 : c = '&'
    · subst h2; rfl
    · by_cases h3 : c = '('
      · subst h3; rfl
      · by_cases h4 : c = ')'
        · subst h4; rfl
        · by_cases h5 : c = ','
          · subst h5; rfl
          · by_cases h6 : c = '-'
            · subst h6; rfl
            · simp [replaceChar_singleton, safeCharRepl, h1, h2, h3, h4, h5, h6]

theorem safe_key_flatMap (s : Str) :
    safe_key s = (pyLower s).flatMap safeCharRepl := by
  unfold safe_key
  generalize pyLower s = l
  induction l with
  | nil => rfl
  | cons c l ih =>
    have hc : (c :: l) = [c] ++ l := rfl
    rw [hc]
    simp only [replaceChar_append]
    rw [show (replaceChar ',' []
      (replaceChar '-' ['_']
        (replaceChar ')' []
          (replaceChar '(' []
            (replaceChar '&' (str "and")
              (replaceChar ' ' ['_'] l))))) = l.flatMap safeCharRepl) from ih]
    rw [safe_key_char c]
    simp

theorem simple_key_flatMap (s : Str) :
    simple_key s = (pyLower s).flatMap (fun c => if c = ' ' then ['_'] else [c]) :=
  rfl

theorem space_not_mem_safe_key (s : Str) : ' ' ∉ safe_key s := by
  rw [safe_key_flatMap]
  intro h
  rw [List.mem_flatMap] at h
  obtain ⟨c, _, hm⟩ := h
  unfold safeCharRepl at hm
  split_ifs at hm with h1 h2 h3 h4 h5 h6
  · exact absurd hm (by decide)
  · exact absurd hm (by decide)
  · exact absurd hm (by decide)
  · exact absurd hm (by decide)
  · exact absurd hm (by decide)
  · exact absurd hm (by decide)
  · simp only [List.mem_singleton] at hm
    exact h1 hm.symm

theorem space_not_mem_simple_key (s : Str) : ' ' ∉ simple_key s := by
  rw [simple_key_flatMap]
  intro h
  rw [List.mem_flatMap] at h
  obtain ⟨c, _, hm⟩ := h
  split_ifs at hm with h1
  · exact absurd hm (by decide)
  · simp only [List.mem_singleton] at hm
    exact h1 hm.symm

/-! ### Identifier injectivity and per-group identifier lists -/

theorem analysisId_injective (pn k : Str) :
    Function.Injective (analysisId pn k) := by
  intro i j h
  exact pad3_injective (List.append_cancel_left h)

theorem crossId_injective (k : Str) : Function.Injective (crossId k) := by
  intro i j h
  exact pad3_injective (List.append_cancel_left h)

theorem estarId_injective (k : Str) : Function.Injective (estarId k) := by
  intro i j h
  exact pad3_injective (List.append_cancel_left h)

theorem crossGroup_ids (g : Str × List Record) (k : Str) (cg : CrossGroup)
    (h : crossGroupOf g = some (k, cg)) :
    cg.validation_checks.map (fun e => e.check_id) =
      (List.range' 1 cg.check_count).map (crossId k) := by
  obtain ⟨hk, _, hcount, hmap⟩ := crossGroupOf_spec g k cg h
  subst hk
  rw [hcount]
  exact mapO_enum_ids (fun i c => crossEntry (simple_key g.1) i c)
    (fun e => e.check_id) (crossId (simple_key g.1))
    (fun i c e he => (crossEntry_spec _ i c e he).1) g.2 1 cg.validation_checks hmap

theorem estarGroup_ids (g : Str × List Record) (k : Str) (eg : EstarGroup)
    (h : estarGroupOf g = some (k, eg)) :
    eg.validation_checks.map (fun e => e.check_id) =
      (List.range' 1 eg.check_count).map (estarId k) := by
  obtain ⟨hk, _, hcount, hmap⟩ := estarGroupOf_spec g k eg h
  subst hk
  rw [hcount]
  exact mapO_enum_ids (fun i c => estarEntry (simple_key g.1) i c)
    (fun e => e.check_id) (estarId (simple_key g.1))
    (fun i c e he => (estarEntry_spec _ i c e he).1) g.2 1 eg.validation_checks hmap

theorem analysisGroup_ids (pname pn : Str) (cat : Str × List Record)
    (k : Str) (ag : AnalysisGroup)
    (h : buildCategory pname pn cat = some (k, ag)) :
    ag.validation_checks.map (fun e => e.check_id) =
      (List.range' 1 ag.check_count).map (analysisId pn k) := by
  obtain ⟨hk, _, hcount, hmap⟩ := buildCategory_spec pname pn cat k ag h
  subst hk
  rw [hcount]
  exact mapO_enum_ids (fun i c => check_cfg pn (safe_key cat.1) i c)
    (fun e => e.check_id) (analysisId pn (safe_key cat.1))
    (fun i c e he => (check_cfg_spec pn (safe_key cat.1) i c e he).1)
    cat.2 1 ag.validation_checks hmap

/-! ### Every emitted entry carries a truncated copy of its source text -/

theorem cross_out_entry (rows : List Record) (out : CrossOutput)
    (h : generate_cross rows = some out) :
    ∀ g ∈ out.doc, ∀ e ∈ g.2.validation_checks,
      ∃ d, e.check_name = pyTake d 100 ∧ e.llm_validation.question = d := by
  intro g hg e he
  obtain ⟨ct, hct, hdoc, _⟩ := generate_cross_parts rows out h
  obtain ⟨src, hsrc, hgOf⟩ := docFold_mem_nil crossGroupOf ct out.doc hdoc g hg
  obtain ⟨_, _, _, hmap⟩ := crossGroupOf_spec src g.1 g.2 hgOf
  obtain ⟨ic, _, hic⟩ := mapO_mem _ _ _ hmap e he
  obtain ⟨_, ⟨d, _, hn, hq⟩, _⟩ := crossEntry_spec _ ic.1 ic.2 e hic
  exact ⟨d, hn, hq⟩

theorem estar_out_entry (rows : List Record) (out : EstarOutput)
    (h : generate_estar rows = some out) :
    ∀ g ∈ out.doc, ∀ e ∈ g.2.validation_checks,
      ∃ d, e.check_name = pyTake d 100 ∧ e.llm_validation.question = d := by
  intro g hg e he
  obtain ⟨sec, hsec, hdoc, _⟩ := generate_estar_parts rows out h
  obtain ⟨src, hsrc, hgOf⟩ := docFold_mem_nil estarGroupOf sec out.doc hdoc g hg
  obtain ⟨_, _, _, hmap⟩ := estarGroupOf_spec src g.1 g.2 hgOf
  obtain ⟨ic, _, hic⟩ := mapO_mem _ _ _ hmap e he
  obtain ⟨_, ⟨d, _, hn, hq⟩, _⟩ := estarEntry_spec _ ic.1 ic.2 e hic
  exact ⟨d, hn, hq⟩

theorem analysis_out_entry (rows : List Record) (out : AnalysisOutput)
    (h : generate_all_configs rows = some out) :
    ∀ doc ∈ out.docs, ∀ g ∈ doc.2, ∀ e ∈ g.2.validation_checks,
      ∃ d, e.check_name = pyTake d 100 ∧ e.llm_validation.question = d := by
  intro doc hdoc g hg e he
  obtain ⟨pd, hpd, hdocs, _⟩ := generate_all_parts rows out h
  obtain ⟨ph, hph, hbuild⟩ := docFold_mem_nil buildPhase (sortByKey pd) out.docs hdocs doc hdoc
  obtain ⟨hlt, hcats⟩ := buildPhase_spec ph doc.1 doc.2 hbuild
  obtain ⟨cat, hcat, hbc⟩ := docFold_mem_nil _ _ _ hcats g hg
  obtain ⟨_, _, _, hmap⟩ := buildCategory_spec ph.1 doc.1 cat g.1 g.2 hbc
  obtain ⟨ic, _, hic⟩ := mapO_mem _ _ _ hmap e he
  obtain ⟨_, ⟨d, _, hn, hq⟩, _⟩ := check_cfg_spec _ _ ic.1 ic.2 e hic
  exact ⟨d, hn, hq⟩

theorem pyTake100_length_le (d : Str) : (pyTake d 100).length ≤ 100 := by
  rw [pyTake, List.length_take]
  exact Nat.min_le_left 100 d.length

/-- Claim C1: for every input file and every group, the emitted check
identifiers are unique within that group, follow the documented format
exactly (analysis path: `P` then the phase number, a dash, the first four
characters of the normalized category key upper-cased, a dash, and the
zero-padded three-digit sequence number, as built by `analysisId`;
cross-phase: `X-` then five characters, as built by `crossId`; eSTAR:
`ESTAR-` then six characters, as built by `estarId`), and the sequence
numbers are exactly `1, 2, ...` up to the group's `check_count`
(contiguous, starting at 1). -/

theorem claim1_ids (rows : List Record) :
    (∀ out : AnalysisOutput, generate_all_configs rows = some out →
      ∀ doc ∈ out.docs, ∀ g ∈ doc.2,
        g.2.validation_checks.map (fun e => e.check_id) =
          (List.range' 1 g.2.check_count).map (analysisId doc.1 g.1) ∧
        (g.2.validation_checks.map (fun e => e.check_id)).Nodup) ∧
    (∀ out : CrossOutput, generate_cross rows = some out →
      ∀ g ∈ out.doc,
        g.2.validation_checks.map (fun e => e.check_id) =
          (List.range' 1 g.2.check_count).map (crossId g.1) ∧
        (g.2.validation_checks.map (fun e => e.check_id)).Nodup) ∧
    (∀ out : EstarOutput, generate_estar rows = some out →
      ∀ g ∈ out.doc,
        g.2.validation_checks.map (fun e => e.check_id) =
          (List.range' 1 g.2.check_count).map (estarId g.1) ∧
        (g.2.validation_checks.map (fun e => e.check_id)).Nodup) := by
  refine ⟨?_, ?_, ?_⟩
  · intro out h doc hdoc g hg
    obtain ⟨pd, hpd, hdocs, _⟩ := generate_all_parts rows out h
    obtain ⟨ph, hph, hbuild⟩ := docFold_mem_nil buildPhase (sortByKey pd) out.docs hdocs doc hdoc
    obtain ⟨hlt, hcats⟩ := buildPhase_spec ph doc.1 doc.2 hbuild
    obtain ⟨cat, hcat, hbc⟩ := docFold_mem_nil _ _ _ hcats g hg
    have hids := analysisGroup_ids ph.1 doc.1 cat g.1 g.2 hbc
    refine ⟨hids, ?_⟩
    rw [hids]
    exact List.Nodup.map (analysisId_injective doc.1 g.1)
      (List.nodup_range' 1 g.2.check_count 1 (by norm_num))
  · intro out h g hg
    obtain ⟨ct, hct, hdoc, _⟩ := generate_cross_parts rows out h
    obtain ⟨src, hsrc, hgOf⟩ := docFold_mem_nil crossGroupOf ct out.doc hdoc g hg
    have hids := crossGroup_ids src g.1 g.2 hgOf
    refine ⟨hids, ?_⟩
    rw [hids]
    exact List.Nodup.map (crossId_injective g.1)
      (List.nodup_range' 1 g.2.check_count 1 (by norm_num))
  · intro out h g hg
    obtain ⟨sec, hsec, hdoc, _⟩ := generate_estar_parts rows out h
    obtain ⟨src, hsrc, hgOf⟩ := docFold_mem_nil estarGroupOf sec out.doc hdoc g hg
    have hids := estarGroup_ids src g.1 g.2 hgOf
    refine ⟨hids, ?_⟩
    rw [hids]
    exact List.Nodup.map (estarId_injective g.1)
      (List.nodup_range' 1 g.2.check_count 1 (by norm_num))

/-- Claim C3: in all three pipelines, every emitted entry's `check_name`
has at most 100 characters (the source description is truncated by
`[:100]`). -/

theorem claim3_name_length (rows : List Record) :
    (∀ out : AnalysisOutput, generate_all_configs rows = some out →
      ∀ doc ∈ out.docs, ∀ g ∈ doc.2, ∀ e ∈ g.2.validation_checks,
        e.check_name.length ≤ 100) ∧
    (∀ out : CrossOutput, generate_cross rows = some out →
      ∀ g ∈ out.doc, ∀ e ∈ g.2.validation_checks, e.check_name.length ≤ 100) ∧
    (∀ out : EstarOutput, generate_estar rows = some out →
      ∀ g ∈ out.doc, ∀ e ∈ g.2.validation_checks, e.check_name.length ≤ 100) := by
  refine ⟨?_, ?_, ?_⟩
  · intro out h doc hdoc g hg e he
    obtain ⟨d, hn, _⟩ := analysis_out_entry rows out h doc hdoc g hg e he
    rw [hn]
    exact pyTake100_length_le d
  · intro out h g hg e he
    obtain ⟨d, hn, _⟩ := cross_out_entry rows out h g hg e he
    rw [hn]
    exact pyTake100_length_le d
  · intro out h g hg e he
    obtain ⟨d, hn, _⟩ := estar_out_entry rows out h g hg e he
    rw [hn]
    exact pyTake100_length_le d

/-- Claim C9: in all three pipelines, every emitted entry's `check_name` is
a prefix of its `llm_validation.question` (the question carries the full
untruncated source description), and the two coincide exactly when the
source description has at most 100 characters. -/

theorem claim9_name_question (rows : List Record) :
    (∀ out : AnalysisOutput, generate_all_configs rows = some out →
      ∀ doc ∈ out.docs, ∀ g ∈ doc.2, ∀ e ∈ g.2.validation_checks,
        e.check_name <+: e.llm_validation.question ∧
        (e.check_name = e.llm_validation.question ↔
          e.llm_validation.question.length ≤ 100)) ∧
    (∀ out : CrossOutput, generate_cross rows = some out →
      ∀ g ∈ out.doc, ∀ e ∈ g.2.validation_checks,
        e.check_name <+: e.llm_validation.question ∧
        (e.check_name = e.llm_validation.question ↔
          e.llm_validation.question.length ≤ 100)) ∧
    (∀ out : EstarOutput, generate_estar rows = some out →
      ∀ g ∈ out.doc, ∀ e ∈ g.2.validation_checks,
        e.check_name <+: e.llm_validation.question ∧
        (e.check_name = e.llm_validation.question ↔
          e.llm_validation.question.length ≤ 100)) := by
  refine ⟨?_, ?_, ?_⟩
  · intro out h doc hdoc g hg e he
    obtain ⟨d, hn, hq⟩ := analysis_out_entry rows out h doc hdoc g hg e he
    rw [hn, hq]
    exact ⟨ List.take_prefix 100 d, take100_eq_iff d⟩
  · intro out h g hg e he
    obtain ⟨d, hn, hq⟩ := cross_out_entry rows out h g hg e he
    rw [hn, hq]
    exact ⟨ List.take_prefix 100 d, take100_eq_iff d⟩
  · intro out h g hg e he
    obtain ⟨d, hn, hq⟩ := estar_out_entry rows out h g hg e he
    rw [hn, hq]
    exact ⟨ List.take_prefix 100 d, take100_eq_iff d⟩

/-! ### Counting rows through the grouping structures -/

theorem valsOf_length {β : Type} (gs : List (Str × List β)) :
    (valsOf gs).length = (gs.map (fun g => g.2.length)).sum := by
  simp [valsOf, List.length_flatten, List.map_map, Function.comp_def]

theorem vals2Of_length (pd : List (Str × List (Str × List Record))) :
    (vals2Of pd).length =
      (pd.map (fun p => (p.2.map (fun g => g.2.length)).sum)).sum := by
  simp [vals2Of, List.length_flatten, List.map_map, Function.comp_def, valsOf_length]

theorem buildPhase_sum (ph : Str × List (Str × List Record)) (pn : Str)
    (d : List (Str × AnalysisGroup)) (hd : buildPhase ph = some (pn, d))
    (hnodup : (ph.2.map (fun c => safe_key c.1)).Nodup) :
    (d.map (fun g => g.2.check_count)).sum =
      (ph.2.map (fun c => c.2.length)).sum := by
  obtain ⟨_, hcatsF⟩ := buildPhase_spec ph pn d hd
  have hpm : List.Perm ((sortByKey ph.2).map (fun c => safe_key c.1))
      (ph.2.map (fun c => safe_key c.1)) :=
    List.Perm.map (fun c : Str × List Record => safe_key c.1) (sortByKey_perm ph.2)
  have hinner : ((sortByKey ph.2).map (fun c => safe_key c.1)).Nodup :=
    hpm.nodup_iff.mpr hnodup
  have hpwc : List.Pairwise
      (fun c1 c2 => ∀ kv1 kv2, buildCategory ph.1 pn c1 = some kv1 →
        buildCategory ph.1 pn c2 = some kv2 → kv1.1 ≠ kv2.1)
      (sortByKey ph.2) := by
    have h1 : List.Pairwise
        (fun c1 c2 => safe_key c1.1 ≠ safe_key c2.1) (sortByKey ph.2) :=
      List.pairwise_map.mp hinner
    refine h1.imp ?_
    intro c1 c2 hne kv1 kv2 hk1 hk2
    rw [(buildCategory_spec ph.1 pn c1 kv1.1 kv1.2 hk1).1,
      (buildCategory_spec ph.1 pn c2 kv2.1 kv2.2 hk2).1]
    exact hne
  obtain ⟨cnavs, hcnavs, hcout⟩ := docFold_append (buildCategory ph.1 pn)
    (sortByKey ph.2) [] d hcatsF (fun a _ kv _ => List.not_mem_nil kv.1) hpwc
  have hdeq : d = cnavs := by simpa using hcout
  have h2 : cnavs.map (fun g => g.2.check_count) =
      (sortByKey ph.2).map (fun c => c.2.length) := by
    refine mapO_map (buildCategory ph.1 pn) _ _ (sortByKey ph.2) cnavs hcnavs ?_
    intro c _ b hb
    exact (buildCategory_spec ph.1 pn c b.1 b.2 hb).2.2.1
  rw [hdeq, h2]
  exact ((sortByKey_perm ph.2).map (fun c => c.2.length)).sum_eq

theorem buildPhase_display (ph : Str × List (Str × List Record)) (pn : Str)
    (d : List (Str × AnalysisGroup)) (hd : buildPhase ph = some (pn, d))
    (hnodup : (ph.2.map (fun c => safe_key c.1)).Nodup) :
    d.map (fun g => g.2.display_name) = (sortByKey ph.2).map Prod.fst := by
  obtain ⟨_, hcatsF⟩ := buildPhase_spec ph pn d hd
  have hpm : List.Perm ((sortByKey ph.2).map (fun c => safe_key c.1))
      (ph.2.map (fun c => safe_key c.1)) :=
    List.Perm.map (fun c : Str × List Record => safe_key c.1) (sortByKey_perm ph.2)
  have hinner : ((sortByKey ph.2).map (fun c => safe_key c.1)).Nodup :=
    hpm.nodup_iff.mpr hnodup
  have hpwc : List.Pairwise
      (fun c1 c2 => ∀ kv1 kv2, buildCategory ph.1 pn c1 = some kv1 →
        buildCategory ph.1 pn c2 = some kv2 → kv1.1 ≠ kv2.1)
      (sortByKey ph.2) := by
    have h1 : List.Pairwise
        (fun c1 c2 => safe_key c1.1 ≠ safe_key c2.1) (sortByKey ph.2) :=
      List.pairwise_map.mp hinner
    refine h1.imp ?_
    intro c1 c2 hne kv1 kv2 hk1 hk2
    rw [(buildCategory_spec ph.1 pn c1 kv1.1 kv1.2 hk1).1,
      (buildCategory_spec ph.1 pn c2 kv2.1 kv2.2 hk2).1]
    exact hne
  obtain ⟨cnavs, hcnavs, hcout⟩ := docFold_append (buildCategory ph.1 pn)
    (sortByKey ph.2) [] d hcatsF (fun a _ kv _ => List.not_mem_nil kv.1) hpwc
  have hdeq : d = cnavs := by simpa using hcout
  rw [hdeq]
  refine mapO_map (buildCategory ph.1 pn) _ _ (sortByKey ph.2) cnavs hcnavs ?_
  intro c _ b hb
  exact (buildCategory_spec ph.1 pn c b.1 b.2 hb).2.1

set_option maxHeartbeats 1600000 in
/-- Claim C2 as amended: at the grouping stage, grouping is a total
partition of the input rows — for each pipeline the stored rows are a
permutation of the input, raw-label group keys are duplicate-free, and every
stored row sits under exactly the key its own grouping column carries.  The
sum of the emitted `check_count` fields equals the number of input rows
provided distinct raw labels receive distinct normalized keys (and, for the
analysis path, distinct phases receive distinct phase numbers); when two
labels collide on the normalized key, the later group overwrites the earlier
one in the document (`setKey`), and the overwritten group's rows are no
longer counted. -/

theorem claim2_partition (rows : List Record) :
    (∀ gs, check_types rows = some gs →
      List.Perm (valsOf gs) rows ∧ (gs.map Prod.fst).Nodup ∧
      ∀ g ∈ gs, ∀ c ∈ g.2, lookup? c (str "Check Type") = some g.1) ∧
    (∀ (out : CrossOutput) gs, generate_cross rows = some out →
      check_types rows = some gs →
      (gs.map (fun g => simple_key g.1)).Nodup →
      (out.doc.map (fun g => g.2.check_count)).sum = rows.length) ∧
    (∀ gs, sections rows = some gs →
      List.Perm (valsOf gs) rows ∧ (gs.map Prod.fst).Nodup ∧
      ∀ g ∈ gs, ∀ c ∈ g.2, lookup? c (str "Check Category") = some g.1) ∧
    (∀ (out : EstarOutput) gs, generate_estar rows = some out →
      sections rows = some gs →
      (gs.map (fun g => simple_key g.1)).Nodup →
      (out.doc.map (fun g => g.2.check_count)).sum = rows.length) ∧
    (∀ pd, phaseData [] rows = some pd →
      List.Perm (vals2Of pd) rows ∧ (pd.map Prod.fst).Nodup ∧
      InnerNodup pd ∧ Inv2 pd) ∧
    (∀ (out : AnalysisOutput) pd, generate_all_configs rows = some out →
      phaseData [] rows = some pd →
      List.Pairwise (fun p1 p2 => lastToken p1.1 ≠ lastToken p2.1) pd →
      (∀ ph ∈ pd, (ph.2.map (fun c => safe_key c.1)).Nodup) →
      (out.docs.map (fun d => (d.2.map (fun g => g.2.check_count)).sum)).sum =
        rows.length) := by
  refine ⟨?_, ?_, ?_, ?_, ?_, ?_⟩
  · intro gs h
    refine ⟨?_, ?_, ?_⟩
    · simpa [valsOf] using groupFold_perm (str "Check Type") rows [] gs h
    · obtain ⟨ks, _, hkeys⟩ := groupFold_keys (str "Check Type") rows [] gs h
      rw [hkeys]
      exact foldl_insertKey_nodup ks _ List.nodup_nil
    · exact groupFold_inv (str "Check Type") rows [] gs
        (fun g hg => absurd hg (List.not_mem_nil g)) h
  · intro out gs h hgs hnodup
    obtain ⟨ct, hct, hdoc, _⟩ := generate_cross_parts rows out h
    obtain rfl : ct = gs := Option.some.inj (hct.symm.trans hgs)
    have hpw : List.Pairwise
        (fun a1 a2 => ∀ kv1 kv2, crossGroupOf a1 = some kv1 →
          crossGroupOf a2 = some kv2 → kv1.1 ≠ kv2.1) ct := by
      have h1 : List.Pairwise
          (fun a b => simple_key a.1 ≠ simple_key b.1) ct :=
        List.pairwise_map.mp hnodup
      refine h1.imp ?_
      intro a b hne kv1 kv2 hk1 hk2
      rw [(crossGroupOf_spec a kv1.1 kv1.2 hk1).1,
        (crossGroupOf_spec b kv2.1 kv2.2 hk2).1]
      exact hne
    obtain ⟨navs, hnavs, hout⟩ := docFold_append crossGroupOf ct [] out.doc
      hdoc (fun a _ kv _ => List.not_mem_nil kv.1) hpw
    have hdoceq : out.doc = navs := by simpa using hout
    have hmap : navs.map (fun g => g.2.check_count) =
        ct.map (fun a => a.2.length) := by
      refine mapO_map crossGroupOf _ _ ct navs hnavs ?_
      intro a _ b hb
      exact (crossGroupOf_spec a b.1 b.2 hb).2.2.1
    have hperm := groupFold_perm (str "Check Type") rows [] ct hct
    have hlen : (valsOf ct).length = rows.length := by
      simpa [valsOf] using hperm.length_eq
    rw [hdoceq, hmap, ← valsOf_length, hlen]
  · intro gs h
    refine ⟨?_, ?_, ?_⟩
    · simpa [valsOf] using groupFold_perm (str "Check Category") rows [] gs h
    · obtain ⟨ks, _, hkeys⟩ := groupFold_keys (str "Check Category") rows [] gs h
      rw [hkeys]
      exact foldl_insertKey_nodup ks _ List.nodup_nil
    · exact groupFold_inv (str "Check Category") rows [] gs
        (fun g hg => absurd hg (List.not_mem_nil g)) h
  · intro out gs h hgs hnodup
    obtain ⟨sec, hsec, hdoc, _⟩ := generate_estar_parts rows out h
    obtain rfl : sec = gs := Option.some.inj (hsec.symm.trans hgs)
    have hpw : List.Pairwise
        (fun a1 a2 => ∀ kv1 kv2, estarGroupOf a1 = some kv1 →
          estarGroupOf a2 = some kv2 → kv1.1 ≠ kv2.1) sec := by
      have h1 : List.Pairwise
          (fun a b => simple_key a.1 ≠ simple_key b.1) sec :=
        List.pairwise_map.mp hnodup
      refine h1.imp ?_
      intro a b hne kv1 kv2 hk1 hk2
      rw [(estarGroupOf_spec a kv1.1 kv1.2 hk1).1,
        (estarGroupOf_spec b kv2.1 kv2.2 hk2).1]
      exact hne
    obtain ⟨navs, hnavs, hout⟩ := docFold_append estarGroupOf sec [] out.doc
      hdoc (fun a _ kv _ => List.not_mem_nil kv.1) hpw
    have hdoceq : out.doc = navs := by simpa using hout
    have hmap : navs.map (fun g => g.2.check_count) =
        sec.map (fun a => a.2.length) := by
      refine mapO_map estarGroupOf _ _ sec navs hnavs ?_
      intro a _ b hb
      exact (estarGroupOf_spec a b.1 b.2 hb).2.2.1
    have hperm := groupFold_perm (str "Check Category") rows [] sec hsec
    have hlen : (valsOf sec).length = rows.length := by
      simpa [valsOf] using hperm.length_eq
    rw [hdoceq, hmap, ← valsOf_length, hlen]
  · intro pd h
    refine ⟨?_, ?_, ?_, ?_⟩
    · simpa [vals2Of] using phaseData_perm rows [] pd h
    · obtain ⟨ks, hkeys⟩ := phaseData_keys rows [] pd h
      rw [hkeys]
      exact foldl_insertKey_nodup ks _ List.nodup_nil
    · exact phaseData_inner_nodup rows [] pd
        (fun g hg => absurd hg (List.not_mem_nil g)) h
    · exact phaseData_inv rows [] pd
        (fun g hg => absurd hg (List.not_mem_nil g)) h
  · intro out pd h hpd hph hcats
    obtain ⟨pd', hpd', hdocs, _⟩ := generate_all_parts rows out h
    obtain rfl : pd' = pd := Option.some.inj (hpd'.symm.trans hpd)
    have hphSorted : List.Pairwise
        (fun p1 p2 => lastToken p1.1 ≠ lastToken p2.1) (sortByKey pd') :=
      ((sortByKey_perm pd').pairwise_iff (fun hne he => hne he.symm)).mpr hph
    have hpw : List.Pairwise
        (fun p1 p2 => ∀ kv1 kv2, buildPhase p1 = some kv1 →
          buildPhase p2 = some kv2 → kv1.1 ≠ kv2.1) (sortByKey pd') := by
      refine hphSorted.imp ?_
      intro p1 p2 hne kv1 kv2 hk1 hk2 he
      exact hne (by
        rw [(buildPhase_spec p1 kv1.1 kv1.2 hk1).1,
          (buildPhase_spec p2 kv2.1 kv2.2 hk2).1, he])
    obtain ⟨navs, hnavs, hout⟩ := docFold_append buildPhase (sortByKey pd') []
      out.docs hdocs (fun a _ kv _ => List.not_mem_nil kv.1) hpw
    have hdocseq : out.docs = navs := by simpa using hout
    have hmap : navs.map (fun d => (d.2.map (fun g => g.2.check_count)).sum) =
        (sortByKey pd').map (fun ph => (ph.2.map (fun c => c.2.length)).sum) := by
      refine mapO_map buildPhase _ _ (sortByKey pd') navs hnavs ?_
      intro ph hphm d hd
      have hphmem : ph ∈ pd' := (sortByKey_perm pd').mem_iff.mp hphm
      exact buildPhase_sum ph d.1 d.2 hd (hcats ph hphmem)
    rw [hdocseq, hmap]
    have hsort := ((sortByKey_perm pd').map
      (fun ph => (ph.2.map (fun c => c.2.length)).sum)).sum_eq
    rw [hsort, ← vals2Of_length]
    simpa [vals2Of] using (phaseData_perm rows [] pd' hpd').length_eq

/-- Claim C2, counterexample: the emitted `check_count` sum can be smaller
than the number of input rows.  The two cross-phase rows `rowP1` and `rowP2`
carry the distinct check types `A B` and `A_B`, which both normalize to the
key `a_b`; `cross_config[type_key] = {...}` overwrites the first group with
the second, so the written document counts only 1 check for 2 input rows. -/

theorem claim2_counterexample :
    (generate_cross [rowP1, rowP2]).map
        (fun o => (o.doc.map (fun g => g.2.check_count)).sum) = some 1 ∧
    ([rowP1, rowP2] : List Record).length = 2 := by
  refine ⟨by decide, rfl⟩


/-- Claim C4: for a fixed parsed input, each generator is a pure function
of its input — two runs on equal inputs produce equal output documents —
and the analysis path's iteration over phases and over categories within a
phase is in sorted (lexicographic) order of the raw phase and category
labels. -/

theorem claim4_deterministic :
    (∀ rows1 rows2 : List Record, rows1 = rows2 →
      generate_all_configs rows1 = generate_all_configs rows2 ∧
      generate_cross rows1 = generate_cross rows2 ∧
      generate_estar rows1 = generate_estar rows2) ∧
    (∀ (rows : List Record) (pd : List (Str × List (Str × List Record))),
      phaseData [] rows = some pd →
        List.Pairwise (fun a b => strLe a.1 b.1 = true) (sortByKey pd) ∧
        ∀ ph ∈ sortByKey pd,
          List.Pairwise (fun a b => strLe a.1 b.1 = true) (sortByKey ph.2)) := by
  constructor
  · intro r1 r2 h
    subst h
    exact ⟨rfl, rfl, rfl⟩
  · intro rows pd _
    exact ⟨sortByKey_sorted pd, fun ph _ => sortByKey_sorted ph.2⟩

/-- Claim C7 as amended: the cross-phase and eSTAR documents list one group
per normalized key, in the order in which each normalized key first appears
(`dedupFirst` of the normalized first-seen raw labels); a later raw label
that collides on the normalized key overwrites the group content in place
rather than adding a group.  The analysis path iterates phases, and
categories within a phase, in sorted order of the raw labels, and whenever
the category keys within a phase are collision-free the emitted
`display_name` sequence is the sorted raw category sequence; under a
collision the emitted sequence need not be sorted (the first key keeps its
position but receives the last colliding label's content). -/

theorem claim7_group_order (rows : List Record) :
    (∀ gs ks, check_types rows = some gs →
      mapO (fun c => lookup? c (str "Check Type")) rows = some ks →
      gs.map Prod.fst = dedupFirst ks) ∧
    (∀ (out : CrossOutput) gs, generate_cross rows = some out →
      check_types rows = some gs →
      out.doc.map Prod.fst = dedupFirst ((gs.map Prod.fst).map simple_key)) ∧
    (∀ gs ks, sections rows = some gs →
      mapO (fun c => lookup? c (str "Check Category")) rows = some ks →
      gs.map Prod.fst = dedupFirst ks) ∧
    (∀ (out : EstarOutput) gs, generate_estar rows = some out →
      sections rows = some gs →
      out.doc.map Prod.fst = dedupFirst ((gs.map Prod.fst).map simple_key)) ∧
    (∀ pd, phaseData [] rows = some pd →
      List.Pairwise (fun a b => strLe a.1 b.1 = true) (sortByKey pd) ∧
      ∀ ph ∈ sortByKey pd,
        List.Pairwise (fun a b => strLe a.1 b.1 = true) (sortByKey ph.2)) ∧
    (∀ (out : AnalysisOutput) pd, generate_all_configs rows = some out →
      phaseData [] rows = some pd →
      (∀ ph ∈ pd, (ph.2.map (fun c => safe_key c.1)).Nodup) →
      ∀ doc ∈ out.docs,
        List.Pairwise (fun a b => strLe a b = true)
          (doc.2.map (fun g => g.2.display_name))) := by
  refine ⟨?_, ?_, ?_, ?_, ?_, ?_⟩
  · intro gs ks h hks
    obtain ⟨ks', hks', hkeys⟩ := groupFold_keys (str "Check Type") rows [] gs h
    obtain rfl : ks' = ks := Option.some.inj (hks'.symm.trans hks)
    simpa [dedupFirst] using hkeys
  · intro out gs h hgs
    obtain ⟨ct, hct, hdoc, _⟩ := generate_cross_parts rows out h
    obtain rfl : ct = gs := Option.some.inj (hct.symm.trans hgs)
    obtain ⟨kvs, hkvs, hkeys⟩ := docFold_keys crossGroupOf ct [] out.doc hdoc
    have hm : kvs.map Prod.fst = ct.map (fun a => simple_key a.1) := by
      refine mapO_map crossGroupOf _ _ ct kvs hkvs ?_
      intro a _ b hb
      exact (crossGroupOf_spec a b.1 b.2 hb).1
    rw [hkeys, hm]
    simp only [dedupFirst, List.map_map]
    rfl
  · intro gs ks h hks
    obtain ⟨ks', hks', hkeys⟩ := groupFold_keys (str "Check Category") rows [] gs h
    obtain rfl : ks' = ks := Option.some.inj (hks'.symm.trans hks)
    simpa [dedupFirst] using hkeys
  · intro out gs h hgs
    obtain ⟨sec, hsec, hdoc, _⟩ := generate_estar_parts rows out h
    obtain rfl : sec = gs := Option.some.inj (hsec.symm.trans hgs)
    obtain ⟨kvs, hkvs, hkeys⟩ := docFold_keys estarGroupOf sec [] out.doc hdoc
    have hm : kvs.map Prod.fst = sec.map (fun a => simple_key a.1) := by
      refine mapO_map estarGroupOf _ _ sec kvs hkvs ?_
      intro a _ b hb
      exact (estarGroupOf_spec a b.1 b.2 hb).1
    rw [hkeys, hm]
    simp only [dedupFirst, List.map_map]
    rfl
  · intro pd _
    exact ⟨sortByKey_sorted pd, fun ph _ => sortByKey_sorted ph.2⟩
  · intro out pd h hpd hcats doc hdoc
    obtain ⟨pd', hpd', hdocs, _⟩ := generate_all_parts rows out h
    obtain rfl : pd' = pd := Option.some.inj (hpd'.symm.trans hpd)
    obtain ⟨ph, hph, hbuild⟩ := docFold_mem_nil buildPhase (sortByKey pd')
      out.docs hdocs doc hdoc
    have hphmem : ph ∈ pd' := (sortByKey_perm pd').mem_iff.mp hph
    have hmap := buildPhase_display ph doc.1 doc.2 hbuild (hcats ph hphmem)
    rw [hmap]
    exact List.Pairwise.map Prod.fst (fun a b hab => hab) (sortByKey_sorted ph.2)

/-- Claim C7, counterexample: the emitted group order is not one group per
first-seen raw label, and the analysis `display_name` sequence is not always
sorted.  The cross-phase rows `rowP1` and `rowP2` carry the distinct check
types `A B` and `A_B` (first-seen in that order), yet the document holds a
single group keyed `a_b` — not one group per label.  The analysis rows
`rowQ1`, `rowQ2`, `rowQ3` carry the categories `A B`, `AC`, `A_B`, which
sort to that order, but after `A_B` overwrites the group of `A B` in place
the emitted display sequence is `A_B, AC`, which is not sorted. -/

theorem claim7_counterexample :
    (generate_cross [rowP1, rowP2]).map (fun o => o.doc.map Prod.fst) =
      some [str "a_b"] ∧
    simple_key (str "A B") = str "a_b" ∧
    simple_key (str "A_B") = str "a_b" ∧
    (generate_all_configs [rowQ1, rowQ2, rowQ3]).map
        (fun o => o.docs.map (fun d => d.2.map (fun g => g.2.display_name))) =
      some [[str "A_B", str "AC"]] ∧
    strLe (str "A_B") (str "AC") = false := by
  refine ⟨by decide, by decide, by decide, by decide, by decide⟩

/-! ### Whole-run success on a single row with all required columns -/

theorem generate_cross_single_isSome (r : Record) (t : Str)
    (ht : lookup? r (str "Check Type") = some t)
    (h1 : (lookup? r (str "Draft Analysis Check (for review/editing)")).isSome)
    (h2 : (lookup? r (str "Phases/Categories Involved")).isSome)
    (h3 : (lookup? r (str "Regulatory Source")).isSome)
    (h4 : (lookup? r (str "Source Section")).isSome)
    (h5 : (lookup? r (str "eSTAR Section Relevance")).isSome) :
    (generate_cross [r]).isSome := by
  obtain ⟨e, he⟩ := Option.isSome_iff_exists.mp
    (crossEntry_isSome (simple_key t) 1 r h1 h2 h3 h4 h5)
  simp [generate_cross, check_types, groupFold, ht, addToGroup, docFold,
    setKey, mapO, crossGroupOf, enum1, he]

theorem generate_estar_single_isSome (r : Record) (s : Str)
    (hs : lookup? r (str "Check Category") = some s)
    (h1 : (lookup? r (str "Draft Analysis Check")).isSome)
    (h2 : (lookup? r (str "eSTAR Section")).isSome)
    (h3 : (lookup? r (str "FDA Guidance Reference")).isSome) :
    (generate_estar [r]).isSome := by
  obtain ⟨e, he⟩ := Option.isSome_iff_exists.mp
    (estarEntry_isSome (simple_key s) 1 r h1 h2 h3)
  simp [generate_estar, sections, groupFold, hs, addToGroup, docFold,
    setKey, mapO, estarGroupOf, enum1, he]

theorem generate_all_single_isSome (r : Record) (ph cat : Str)
    (hp : lookup? r (str "Phase") = some ph)
    (hnb : ∃ c ∈ ph, ¬ pyIsSpace c = true)
    (hc : lookup? r (str "Category") = some cat)
    (h1 : (lookup? r (str "Draft Analysis Check (for review/editing)")).isSome)
    (h2 : (lookup? r (str "Regulatory Source")).isSome)
    (h3 : (lookup? r (str "Source Section")).isSome)
    (h4 : (lookup? r (str "eSTAR Section Relevance")).isSome) :
    (generate_all_configs [r]).isSome := by
  obtain ⟨pn, hpn⟩ := Option.isSome_iff_exists.mp (lastToken_isSome ph hnb)
  obtain ⟨e, he⟩ := Option.isSome_iff_exists.mp
    (check_cfg_isSome pn (safe_key cat) 1 r h1 h2 h3 h4)
  simp [generate_all_configs, phaseData, hp, hc, addToGroup2, addToGroup,
    sortByKey, isort, insertSorted, docFold, setKey, mapO, buildPhase, hpn,
    buildCategory, enum1, he]

/-- Claim C6: a row missing a column the scripts treat as optional
(`Priority`, `Automation Feasibility`, `Notes`, `Design V&V Reference`,
`Testing Ref`) does not abort the run — given its required columns, the
row's entry is still built, and each whole pipeline still succeeds on such
a row — and the corresponding emitted field is the empty string. -/

theorem claim6_optional_columns (c : Record) (pn k : Str) (i : Nat) :
    ((lookup? c (str "Draft Analysis Check (for review/editing)")).isSome →
     (lookup? c (str "Regulatory Source")).isSome →
     (lookup? c (str "Source Section")).isSome →
     (lookup? c (str "eSTAR Section Relevance")).isSome →
      ∃ e, check_cfg pn k i c = some e ∧
        (lookup? c (str "Priority") = none → e.priority = []) ∧
        (lookup? c (str "Automation Feasibility") = none →
          e.automation_feasibility = []) ∧
        (lookup? c (str "Notes") = none → e.notes = []) ∧
        (lookup? c (str "Design V&V Reference") = none →
          e.design_vv_reference = []) ∧
        (lookup? c (str "Testing Ref") = none → e.testing_ref = [])) ∧
    ((lookup? c (str "Draft Analysis Check (for review/editing)")).isSome →
     (lookup? c (str "Phases/Categories Involved")).isSome →
     (lookup? c (str "Regulatory Source")).isSome →
     (lookup? c (str "Source Section")).isSome →
     (lookup? c (str "eSTAR Section Relevance")).isSome →
      ∃ e, crossEntry k i c = some e ∧
        (lookup? c (str "Priority") = none → e.priority = []) ∧
        (lookup? c (str "Automation Feasibility") = none →
          e.automation_feasibility = []) ∧
        (lookup? c (str "Notes") = none → e.notes = []) ∧
        (lookup? c (str "Design V&V Reference") = none →
          e.design_vv_reference = [])) ∧
    ((lookup? c (str "Draft Analysis Check")).isSome →
     (lookup? c (str "eSTAR Section")).isSome →
     (lookup? c (str "FDA Guidance Reference")).isSome →
      ∃ e, estarEntry k i c = some e ∧
        (lookup? c (str "Priority") = none → e.priority = []) ∧
        (lookup? c (str "Notes") = none → e.notes = [])) ∧
    (∀ t, lookup? c (str "Check Type") = some t →
      (lookup? c (str "Draft Analysis Check (for review/editing)")).isSome →
      (lookup? c (str "Phases/Categories Involved")).isSome →
      (lookup? c (str "Regulatory Source")).isSome →
      (lookup? c (str "Source Section")).isSome →
      (lookup? c (str "eSTAR Section Relevance")).isSome →
      (generate_cross [c]).isSome) ∧
    (∀ s, lookup? c (str "Check Category") = some s →
      (lookup? c (str "Draft Analysis Check")).isSome →
      (lookup? c (str "eSTAR Section")).isSome →
      (lookup? c (str "FDA Guidance Reference")).isSome →
      (generate_estar [c]).isSome) ∧
    (∀ ph cat, lookup? c (str "Phase") = some ph →
      (∃ ch ∈ ph, ¬ pyIsSpace ch = true) →
      lookup? c (str "Category") = some cat →
      (lookup? c (str "Draft Analysis Check (for review/editing)")).isSome →
      (lookup? c (str "Regulatory Source")).isSome →
      (lookup? c (str "Source Section")).isSome →
      (lookup? c (str "eSTAR Section Relevance")).isSome →
      (generate_all_configs [c]).isSome) := by
  refine ⟨?_, ?_, ?_, ?_, ?_, ?_⟩
  · intro h1 h2 h3 h4
    obtain ⟨e, he⟩ := Option.isSome_iff_exists.mp (check_cfg_isSome pn k i c h1 h2 h3 h4)
    obtain ⟨_, _, hpr, haf, hno, hdv, htr⟩ := check_cfg_spec pn k i c e he
    refine ⟨e, he, ?_, ?_, ?_, ?_, ?_⟩ <;> intro hn <;>
      simp_all [getD]
  · intro h1 h2 h3 h4 h5
    obtain ⟨e, he⟩ := Option.isSome_iff_exists.mp
      (crossEntry_isSome k i c h1 h2 h3 h4 h5)
    obtain ⟨_, _, hpr, haf, hno, hdv⟩ := crossEntry_spec k i c e he
    refine ⟨e, he, ?_, ?_, ?_, ?_⟩ <;> intro hn <;> simp_all [getD]
  · intro h1 h2 h3
    obtain ⟨e, he⟩ := Option.isSome_iff_exists.mp (estarEntry_isSome k i c h1 h2 h3)
    obtain ⟨_, _, hpr, hno⟩ := estarEntry_spec k i c e he
    refine ⟨e, he, ?_, ?_⟩ <;> intro hn <;> simp_all [getD]
  · intro t ht h1 h2 h3 h4 h5
    exact generate_cross_single_isSome c t ht h1 h2 h3 h4 h5
  · intro s hs h1 h2 h3
    exact generate_estar_single_isSome c s hs h1 h2 h3
  · intro ph cat hp hnb hc h1 h2 h3 h4
    exact generate_all_single_isSome c ph cat hp hnb hc h1 h2 h3 h4

/-- Claim C10: extracting the phase number as the last whitespace-delimited
token of the `Phase` field succeeds whenever that field has at least one
non-whitespace character; on a row whose `Phase` field is empty or all
whitespace the token list is empty, the index access has no value, and the
analysis run aborts (the generator returns `none`). -/

theorem claim10_phase_token :
    (∀ s : Str, (∃ c ∈ s, ¬ pyIsSpace c = true) → (lastToken s).isSome) ∧
    (∀ (r : Record) (ph cat : Str),
      lookup? r (str "Phase") = some ph →
      (∀ c ∈ ph, pyIsSpace c = true) →
      lookup? r (str "Category") = some cat →
      generate_all_configs [r] = none) := by
  constructor
  · exact lastToken_isSome
  · intro r ph cat hp hsp hc
    simp [generate_all_configs, phaseData, hp, hc, addToGroup2, addToGroup,
      sortByKey, isort, insertSorted, docFold, setKey, mapO, buildPhase,
      lastToken_none ph hsp]

/-- Claim C5, counterexample: on a header-only input (no data rows) the
analysis generator does not produce "an output document with zero groups" —
it produces no output document at all (`docs = []`, one file per phase and
there are no phases), while still reporting a total of 0 checks and not
faulting.  The claim as stated is therefore false for the analysis
generator. -/

theorem claim5_counterexample :
    generate_all_configs [] = some { docs := [], total := 0 } := rfl

/-- Claim C5 as amended: on a header-only input the cross-phase and eSTAR
generators each produce exactly one output document with zero groups and a
reported total of 0 checks; the analysis generator produces zero output
documents (not one empty document) and reports a total of 0 checks; none of
the three faults. -/

theorem claim5_empty_input :
    generate_cross [] = some { doc := [], total := 0 } ∧
    generate_estar [] = some { doc := [], total := 0 } ∧
    generate_all_configs [] = some { docs := [], total := 0 } :=
  ⟨rfl, rfl, rfl⟩

/-- Claim C8, counterexample: normalization does not replace punctuation
with underscores and the resulting keys can retain reserved punctuation.
For the label `A&B`, the cross-phase/eSTAR normalization yields the key
`a&b` — the ampersand (a YAML-reserved character) survives into the
document key — and the analysis-path `safe_key` yields `aandb` (the
ampersand is spelled out as `and`, not replaced by an underscore). -/

theorem claim8_counterexample :
    simple_key (str "A&B") = str "a&b" ∧
    '&' ∈ simple_key (str "A&B") ∧
    safe_key (str "A&B") = str "aandb" ∧
    (generate_estar [ampRow]).map (fun o => o.doc.map Prod.fst) =
      some [str "a&b"] := by
  refine ⟨by decide, by decide, by decide, by decide⟩

/-- Claim C8 as amended: the analysis-path `safe_key` lower-cases its input
and then, character-wise, turns spaces and hyphens into underscores, spells
an ampersand out as `and`, deletes parentheses and commas, and passes every
other character through unchanged; the cross-phase/eSTAR normalization only
lower-cases and turns spaces into underscores.  Both therefore produce keys
free of spaces, but punctuation other than the characters listed is kept,
so keys need not be free of reserved punctuation. -/

theorem claim8_key_normalization :
    (∀ s : Str, safe_key s = (pyLower s).flatMap safeCharRepl) ∧
    (∀ s : Str, simple_key s =
      (pyLower s).flatMap (fun c => if c = ' ' then ['_'] else [c])) ∧
    (∀ s : Str, ' ' ∉ safe_key s) ∧
    (∀ s : Str, ' ' ∉ simple_key s) :=
  ⟨safe_key_flatMap, simple_key_flatMap,
    space_not_mem_safe_key, space_not_mem_simple_key⟩

/-! ### Concrete sample rows and the outputs computed from them -/

/-! ### Witnesses instantiating each hypothesis-bearing claim theorem -/

theorem claim1_ids_witness :
    grpA.2.validation_checks.map (fun e => e.check_id) =
      (List.range' 1 grpA.2.check_count).map (analysisId docA.1 grpA.1) ∧
    (grpA.2.validation_checks.map (fun e => e.check_id)).Nodup :=
  (claim1_ids [rowA]).1 outA (by decide) docA (by decide) grpA (by decide)

theorem claim2_partition_witness :
    List.Perm (valsOf ctX) [rowX] ∧
    (outX.doc.map (fun g => g.2.check_count)).sum = 1 :=
  ⟨((claim2_partition [rowX]).1 ctX (by decide)).1,
   (claim2_partition [rowX]).2.1 outX ctX (by decide) (by decide) (by decide)⟩

theorem claim3_name_length_witness : entX.check_name.length ≤ 100 :=
  (claim3_name_length [rowX]).2.1 outX (by decide) gX (by decide) entX (by decide)

theorem claim4_deterministic_witness :
    (generate_all_configs [rowA] = generate_all_configs [rowA] ∧
      generate_cross [rowA] = generate_cross [rowA] ∧
      generate_estar [rowA] = generate_estar [rowA]) ∧
    List.Pairwise (fun a b => strLe a.1 b.1 = true) (sortByKey pdA) :=
  ⟨claim4_deterministic.1 [rowA] [rowA] rfl,
   (claim4_deterministic.2 [rowA] pdA (by decide)).1⟩

theorem claim6_optional_columns_witness :
    (generate_cross [rowX]).isSome ∧ (generate_all_configs [rowA]).isSome :=
  ⟨(claim6_optional_columns rowX (str "x") (str "x") 1).2.2.2.1 (str "Traceability")
      (by decide) (by decide) (by decide) (by decide) (by decide) (by decide),
   (claim6_optional_columns rowA (str "x") (str "x") 1).2.2.2.2.2 (str "Phase 1")
      (str "Software") (by decide) ⟨'P', by decide, by decide⟩ (by decide)
      (by decide) (by decide) (by decide) (by decide)⟩

theorem claim7_group_order_witness :
    ctX.map Prod.fst = dedupFirst [str "Traceability"] ∧
    outX.doc.map Prod.fst = dedupFirst ((ctX.map Prod.fst).map simple_key) ∧
    List.Pairwise (fun a b => strLe a b = true)
      (docA.2.map (fun g => g.2.display_name)) :=
  ⟨(claim7_group_order [rowX]).1 ctX [str "Traceability"] (by decide) (by decide),
   (claim7_group_order [rowX]).2.1 outX ctX (by decide) (by decide),
   (claim7_group_order [rowA]).2.2.2.2.2 outA pdA (by decide) (by decide)
     (by decide) docA (by decide)⟩

theorem claim9_name_question_witness :
    entX.check_name <+: entX.llm_validation.question ∧
    (entX.check_name = entX.llm_validation.question ↔
      entX.llm_validation.question.length ≤ 100) :=
  (claim9_name_question [rowX]).2.1 outX (by decide) gX (by decide) entX (by decide)

theorem claim10_phase_token_witness :
    (lastToken (str "Phase 1")).isSome ∧ generate_all_configs [wsRow] = none :=
  ⟨claim10_phase_token.1 (str "Phase 1") ⟨'P', by decide, by decide⟩,
   claim10_phase_token.2 wsRow (str "  ") (str "X") (by decide) (by decide)
     (by decide)⟩
